import Mathlib

/-!
# myfs: a shallow embedding of `src/myfs.c`

The program keeps every inode in a singly linked chain that starts at
`root_node`; an inode id is the position of an inode in that chain.  The
embedding keeps the pointer structure: the heap is a list of inode cells, a
pointer to an inode is the index of its cell (cell `0` is `root_node`), and the
`next` field of a cell is an optional cell index.  `bad_node` lives outside the
heap, as in the program.

Conventions of the embedding:

* C strings are `List Char` (no terminator, no embedded NUL); `strcmp(a, b) == 0`
  is equality of lists.  A `strcpy` of a string `s` writes `s.length + 1` bytes;
  the buffers it writes to have the sizes of the program: `pth` of `lookup` has 32
  bytes, `parent` and `leaf` have `BLOCK_SIZE` bytes, `name` of a record has 28
  bytes, `data` of `myfs2_read` has `size` bytes.  A copy that does not fit is
  `Fault.overrun`.  The block of a symbolic link holds the bytes of its target;
  the terminator that `strcpy` writes after them is not part of the embedding.
* A block (`void *`, `calloc`-ed) is typed by the view the program takes of it:
  `Block.recs` is `struct DirRecord[4]`, `Block.data` is a `char` buffer.
* `int` fields are `Int`; the conversions the program performs (`size_t` to
  `int`, signed/unsigned comparison) are written out with `i32` and `u64`.
* An operation returns `Except Fault _`: `Fault.diverges` is a loop that never
  exits, `Fault.segfault` a dereference of `NULL` or an access outside an array,
  `Fault.pun` a block read through the view it was not written with,
  `Fault.overrun` a copy past the end of a block or of a buffer.
-/

namespace MyFS

/-! ## Constants -/

abbrev BLOCKS_PER_FILE : Nat := 32
abbrev BLOCK_SIZE : Nat := 128
abbrev TYPE_NIL : Nat := 0
abbrev TYPE_REG : Nat := 1
abbrev TYPE_DIR : Nat := 2
abbrev TYPE_LNK : Nat := 4
abbrev ENOENT : Int := 2
abbrev ENOTEMPTY : Int := 39

/-! ## Data structures -/

/-- Ways in which the C program leaves defined behaviour. -/
inductive Fault where
  | diverges
  | segfault
  | pun
  | overrun
  deriving DecidableEq, Repr

/-- The record `struct DirRecord`: `name` is the string held in `char name[28]`,
which has room for 27 bytes and the terminator. -/
structure DirRecord where
  inode_id : Int
  name : List Char
  name_fits : name.length < 28 := by decide
  deriving DecidableEq, Repr

/-- One allocated block, typed by the view taken of it. -/
inductive Block where
  | data (bytes : List Char)
  | recs (records : List DirRecord)
  deriving DecidableEq, Repr

/-- The record `struct Inode`; `next` and `prev` are heap cell indices. -/
structure Inode where
  type : Nat
  size : Int
  n_links : Int
  blocks : List (Option Block)
  next : Option Nat
  prev : Option Nat
  deriving DecidableEq, Repr

/-- A value of type `struct Inode *` that is not `NULL`. -/
inductive Ptr where
  | bad
  | node (a : Nat)
  deriving DecidableEq, Repr

/-- The global state: `bad_node` and the heap of inode cells (`root_node` is cell 0). -/
structure FS where
  bad_node : Inode
  heap : List Inode
  deriving DecidableEq, Repr

/-! ## Machine integers -/

/-- Conversion to `int` (two's complement, 32 bits). -/
def i32 (x : Int) : Int := (x + 2147483648) % 4294967296 - 2147483648

/-- Conversion to `size_t` (64 bits, unsigned). -/
def u64 (x : Int) : Int := x % 18446744073709551616

/-! ## Memory -/

/-- The result of `calloc(1, sizeof(struct Inode))`. -/
def zero_inode : Inode :=
  { type := TYPE_NIL, size := 0, n_links := 0,
    blocks := List.replicate BLOCKS_PER_FILE none, next := none, prev := none }

/-- The result of `calloc(1, BLOCK_SIZE)` viewed as `struct DirRecord[4]`. -/
def zero_recs : Block := Block.recs (List.replicate 4 { inode_id := 0, name := [] })

/-- The result of `calloc(1, BLOCK_SIZE)` viewed as `char[BLOCK_SIZE]`. -/
def zero_data : List Char := List.replicate BLOCK_SIZE (Char.ofNat 0)

/-- Dereference of an inode pointer. -/
def deref (st : FS) : Ptr → Except Fault Inode
  | Ptr.bad => pure st.bad_node
  | Ptr.node a =>
    match st.heap[a]? with
    | some n => pure n
    | none => throw Fault.segfault

/-- Assignment through an inode pointer. -/
def store (st : FS) (p : Ptr) (n : Inode) : FS :=
  match p with
  | Ptr.bad => { st with bad_node := n }
  | Ptr.node a => { st with heap := st.heap.set a n }

/-- Update of the fields of `*p`. -/
def modify (st : FS) (p : Ptr) (f : Inode → Inode) : Except Fault FS := do
  let n ← deref st p
  pure (store st p (f n))

/-- The value of `blocks[i]`, for `i` inside the array. -/
def get_block (blocks : List (Option Block)) (i : Int) : Except Fault (Option Block) :=
  if 0 ≤ i ∧ i < BLOCKS_PER_FILE then
    match blocks[i.toNat]? with
    | some b => pure b
    | none => throw Fault.segfault
  else throw Fault.segfault

/-- The assignment `blocks[i] = b`, for `i` inside the array. -/
def set_block (blocks : List (Option Block)) (i : Int) (b : Option Block) :
    Except Fault (List (Option Block)) :=
  if 0 ≤ i ∧ i < BLOCKS_PER_FILE ∧ i.toNat < blocks.length then
    pure (blocks.set i.toNat b)
  else throw Fault.segfault

/-- A block pointer used as `struct DirRecord *`. -/
def recs_of : Option Block → Except Fault (List DirRecord)
  | none => throw Fault.segfault
  | some (Block.data _) => throw Fault.pun
  | some (Block.recs rs) => pure rs

/-- A block pointer used as `char *`. -/
def data_of : Option Block → Except Fault (List Char)
  | none => throw Fault.segfault
  | some (Block.data d) => pure d
  | some (Block.recs _) => throw Fault.pun

/-- The record `((struct DirRecord *) blocks[block_id])[pos]`. -/
def get_rec (blocks : List (Option Block)) (block_id pos : Int) : Except Fault DirRecord := do
  let rs ← recs_of (← get_block blocks block_id)
  if 0 ≤ pos then
    match rs[pos.toNat]? with
    | some r => pure r
    | none => throw Fault.segfault
  else throw Fault.segfault

/-- Assignment to `((struct DirRecord *) blocks[block_id])[pos]`. -/
def set_rec (blocks : List (Option Block)) (block_id pos : Int) (r : DirRecord) :
    Except Fault (List (Option Block)) := do
  let rs ← recs_of (← get_block blocks block_id)
  if 0 ≤ pos ∧ pos.toNat < rs.length then
    set_block blocks block_id (some (Block.recs (rs.set pos.toNat r)))
  else throw Fault.segfault

/-! ## `init_fs` -/

/-- The state after `init_fs()`. -/
def init_fs : FS :=
  { bad_node := zero_inode,
    heap := [{ type := TYPE_DIR, size := 2, n_links := 2,
               blocks := some (Block.recs [{ inode_id := 0, name := ['.'] },
                                           { inode_id := 0, name := ['.', '.'] },
                                           { inode_id := 0, name := [] },
                                           { inode_id := 0, name := [] }])
                         :: List.replicate (BLOCKS_PER_FILE - 1) none,
               next := none, prev := none }] }

/-! ## Walking the inode chain -/

/-- The loop of `get_bad_inode`, from `curr`. -/
def get_bad_inode_loop (heap : List Inode) : Nat → Nat → Except Fault (Option Nat)
  | 0, _ => throw Fault.diverges
  | fuel + 1, curr =>
    match heap[curr]? with
    | none => throw Fault.segfault
    | some n =>
      match n.next with
      | some nx =>
        if n.type ≠ TYPE_NIL then get_bad_inode_loop heap fuel nx
        else pure (some curr)
      | none => if n.type = TYPE_NIL then pure (some curr) else pure none

/-- The function `get_bad_inode()`: the first inode of the chain whose type is
`TYPE_NIL`, or `NULL` (`none`).  A walk of more than `heap.length` steps has
met a cell twice and never ends. -/
def get_bad_inode (st : FS) : Except Fault (Option Nat) :=
  get_bad_inode_loop st.heap st.heap.length 0

/-- The loop of `get_inode(index)` for `index >= 0`: at most `index` steps. -/
def get_inode_steps (heap : List Inode) : Nat → Nat → Except Fault Nat
  | 0, curr => pure curr
  | index + 1, curr =>
    match heap[curr]? with
    | none => throw Fault.segfault
    | some n =>
      match n.next with
      | some nx => get_inode_steps heap index nx
      | none => pure curr

/-- The loop of `get_inode(index)` for `index < 0`: to the end of the chain. -/
def get_inode_last (heap : List Inode) : Nat → Nat → Except Fault Nat
  | 0, _ => throw Fault.diverges
  | fuel + 1, curr =>
    match heap[curr]? with
    | none => throw Fault.segfault
    | some n =>
      match n.next with
      | some nx => get_inode_last heap fuel nx
      | none => pure curr

/-- The function `get_inode(index)`. -/
def get_inode (st : FS) (index : Int) : Except Fault Nat :=
  if 0 ≤ index then get_inode_steps st.heap index.toNat 0
  else get_inode_last st.heap st.heap.length 0

/-- The loop of `get_inode_id(node)`. -/
def get_inode_id_loop (heap : List Inode) (node : Ptr) : Nat → Nat → Int → Except Fault Int
  | 0, _, _ => throw Fault.diverges
  | fuel + 1, curr, index =>
    if node = Ptr.node curr then pure index
    else
      match heap[curr]? with
      | none => throw Fault.segfault
      | some n =>
        match n.next with
        | some nx => get_inode_id_loop heap node fuel nx (index + 1)
        | none => pure index

/-- The function `get_inode_id(node)`. -/
def get_inode_id (st : FS) (node : Ptr) : Except Fault Int :=
  get_inode_id_loop st.heap node st.heap.length 0 0

/-! ## Paths -/

/-- The successive results of `strtok(pth, "/")`, `strtok(NULL, "/")`, ...;
`cur` is the token being read. -/
def strtok_aux : List Char → List Char → List (List Char)
  | [], cur => if cur = [] then [] else [cur]
  | c :: cs, cur =>
    if c = '/' then
      (if cur = [] then strtok_aux cs [] else cur :: strtok_aux cs [])
    else strtok_aux cs (cur ++ [c])

/-- The segments of a path, in order. -/
def strtok (path : List Char) : List (List Char) := strtok_aux path []

/-- The function `split_path(path, parent, leaf)`: `parent` is `path` up to and
including its last slash, `leaf` is the rest.  Without a slash `strrchr`
returns `NULL`.  Every caller passes `calloc(1, BLOCK_SIZE)` for `parent` and for
`leaf`: `strcpy(leaf, last_slash)` and `strcpy(parent, pth)` fit only strings
shorter than `BLOCK_SIZE`. -/
def split_path (path : List Char) : Except Fault (List Char × List Char) :=
  let r := path.reverse
  if r.dropWhile (fun c => c != '/') = [] then throw Fault.segfault
  else if BLOCK_SIZE ≤ (r.takeWhile (fun c => c != '/')).length then throw Fault.overrun
  else if BLOCK_SIZE ≤ (r.dropWhile (fun c => c != '/')).length then throw Fault.overrun
  else pure ((r.dropWhile (fun c => c != '/')).reverse, (r.takeWhile (fun c => c != '/')).reverse)

/-! ## `lookup` -/

/-- The inner loop of `lookup` (over `j`), from `j` with `n` slots left:
the inode id of a match, and `watched`. -/
def lookup_inner (records : List DirRecord) (segment : List Char) (size : Int) :
    Nat → Nat → Int → Except Fault (Option Int × Int)
  | 0, _, watched => pure (none, watched)
  | n + 1, j, watched =>
    if watched < size then
      match records[j]? with
      | none => throw Fault.segfault
      | some r =>
        if r.name = segment then pure (some r.inode_id, watched + 1)
        else lookup_inner records segment size n (j + 1) (watched + 1)
    else pure (none, watched)

/-- The outer loop of `lookup` (over `i`), over the blocks from `blocks[i]` on. -/
def lookup_outer (segment : List Char) (size : Int) :
    List (Option Block) → Int → Except Fault (Option Int)
  | [], _ => pure none
  | b :: bs, watched =>
    if watched < size then do
      let rs ← recs_of b
      let r ← lookup_inner rs segment size 4 0 watched
      match r.1 with
      | some id => pure (some id)
      | none => lookup_outer segment size bs r.2
    else pure none

/-- The `while (segment)` loop of `lookup`. -/
def lookup_loop (st : FS) : List (List Char) → Nat → Bool → Except Fault Ptr
  | [], current_inode, found_flag =>
    pure (if found_flag then Ptr.node current_inode else Ptr.bad)
  | segment :: rest, current_inode, _ => do
    let node ← deref st (Ptr.node current_inode)
    if node.type ≠ TYPE_DIR then pure Ptr.bad
    else
      let r ← lookup_outer segment node.size (node.blocks.take BLOCKS_PER_FILE) 0
      match r with
      | some id => do
        let nxt ← get_inode st id
        lookup_loop st rest nxt true
      | none => lookup_loop st rest current_inode false

/-- The function `lookup(path)`.  `strcpy(pth, path)` writes `path.length + 1` bytes
to the 32 bytes of `pth = calloc(32, sizeof(char))`. -/
def lookup (st : FS) (path : List Char) : Except Fault Ptr :=
  if path = ['/'] then pure (Ptr.node 0)
  else if 32 ≤ path.length then throw Fault.overrun
  else lookup_loop st (strtok path) 0 false

/-! ## Directory records of a parent -/

/-- The statements `block_id = size / 4; pos = size % 4; if (!pos) blocks[block_id]
= calloc(1, BLOCK_SIZE); size = size + 1;` on `*parent_dir`; returns `block_id`
and `pos`. -/
def dir_reserve (st : FS) (parent_dir : Ptr) : Except Fault (FS × Int × Int) := do
  let p ← deref st parent_dir
  let block_id := Int.tdiv p.size 4
  let pos := Int.tmod p.size 4
  let blocks ← if pos = 0 then set_block p.blocks block_id (some zero_recs) else pure p.blocks
  pure (store st parent_dir { p with blocks := blocks, size := p.size + 1 }, block_id, pos)

/-- The statements `rec = blocks[block_id] + pos; rec->inode_id = inode_id;
strcpy(rec->name, leaf);` on `*parent_dir`.  The `strcpy` writes `leaf.length + 1`
bytes to the 28 bytes of `rec->name`: a leaf of 28 bytes or more does not fit. -/
def dir_put (st : FS) (parent_dir : Ptr) (block_id pos : Int) (inode_id : Int)
    (leaf : List Char) : Except Fault FS := do
  let p ← deref st parent_dir
  if h : leaf.length < 28 then do
    let blocks ← set_rec p.blocks block_id pos
      { inode_id := inode_id, name := leaf, name_fits := h }
    pure (store st parent_dir { p with blocks := blocks })
  else throw Fault.overrun

/-- The statements `new_node = get_bad_inode(); if (!new_node) new_node =
calloc(1, sizeof(struct Inode));`: a fresh cell is put at the end of the heap. -/
def new_inode (st : FS) : Except Fault (FS × Nat) := do
  let r ← get_bad_inode st
  match r with
  | some a => pure (st, a)
  | none => pure ({ st with heap := st.heap ++ [zero_inode] }, st.heap.length)

/-! ## Node operations -/

/-- The function `myfs2_link(to, from)`; the parameters are named `to_path` and
`from_path`. -/
def myfs2_link (st : FS) (to_path from_path : List Char) : Except Fault (FS × Int) := do
  let node ← lookup st to_path
  let st ← modify st node (fun n => { n with n_links := n.n_links + 1 })
  let pl ← split_path from_path
  let parent_dir ← lookup st pl.1
  let r ← dir_reserve st parent_dir
  let id ← get_inode_id r.1 node
  let st ← dir_put r.1 parent_dir r.2.1 r.2.2 id pl.2
  pure (st, 0)

/-- The function `myfs2_mkdir(path, mode)`. -/
def myfs2_mkdir (st : FS) (path : List Char) : Except Fault (FS × Int) := do
  let a ← new_inode st
  let new_node := a.2
  let last_node ← get_inode a.1 (-1)
  let st ← modify a.1 (Ptr.node last_node) (fun n => { n with next := some new_node })
  let st ← modify st (Ptr.node new_node) (fun n => { n with prev := some last_node })
  let st ← modify st (Ptr.node new_node)
    (fun n => { n with n_links := 2, type := TYPE_DIR, next := none })
  let inode_id ← get_inode_id st (Ptr.node new_node)
  let pl ← split_path path
  let parent_dir ← lookup st pl.1
  let r ← dir_reserve st parent_dir
  let st ← modify r.1 parent_dir (fun n => { n with n_links := n.n_links + 1 })
  let st ← dir_put st parent_dir r.2.1 r.2.2 inode_id pl.2
  let n ← deref st (Ptr.node new_node)
  let blocks ← set_block n.blocks 0 (some zero_recs)
  let blocks ← set_rec blocks 0 0 { inode_id := inode_id, name := ['.'] }
  let st := store st (Ptr.node new_node) { n with blocks := blocks }
  let pid ← get_inode_id st parent_dir
  let n ← deref st (Ptr.node new_node)
  let blocks ← set_rec n.blocks 0 1 { inode_id := pid, name := ['.', '.'] }
  let st := store st (Ptr.node new_node) { n with blocks := blocks, size := 2 }
  pure (st, 0)

/-- The function `myfs2_mknod(path, mode, rdev)`. -/
def myfs2_mknod (st : FS) (path : List Char) : Except Fault (FS × Int) := do
  let a ← new_inode st
  let new_node := a.2
  let st ← modify a.1 (Ptr.node new_node)
    (fun n => { n with n_links := 1, type := TYPE_REG, next := none, size := 0 })
  let last_node ← get_inode st (-1)
  let st ← modify st (Ptr.node last_node) (fun n => { n with next := some new_node })
  let st ← modify st (Ptr.node new_node) (fun n => { n with prev := some last_node })
  let pl ← split_path path
  let parent_dir ← lookup st pl.1
  let r ← dir_reserve st parent_dir
  let id ← get_inode_id r.1 (Ptr.node new_node)
  let st ← dir_put r.1 parent_dir r.2.1 r.2.2 id pl.2
  pure (st, 0)

/-- The function `myfs2_symlink(to, from)`; the first block holds the bytes of `to`; the
parameters `to` and `from` are named `to_path` and `from_path`. -/
def myfs2_symlink (st : FS) (to_path from_path : List Char) : Except Fault (FS × Int) := do
  let a ← new_inode st
  let new_node := a.2
  let st ← modify a.1 (Ptr.node new_node)
    (fun n => { n with n_links := 1, type := TYPE_LNK, next := none, size := to_path.length,
                       blocks := n.blocks.set 0 (some (Block.data to_path)) })
  let last_node ← get_inode st (-1)
  let st ← modify st (Ptr.node last_node) (fun n => { n with next := some new_node })
  let st ← modify st (Ptr.node new_node) (fun n => { n with prev := some last_node })
  let pl ← split_path from_path
  let parent_dir ← lookup st pl.1
  let r ← dir_reserve st parent_dir
  let id ← get_inode_id r.1 (Ptr.node new_node)
  let st ← dir_put r.1 parent_dir r.2.1 r.2.2 id pl.2
  pure (st, 0)

/-- The scan `while (record->inode_id != inode_id)` of `myfs2_unlink`, from slot
`(block_id_1, pos_1)`; it is not bounded by the size of the directory. -/
def unlink_find (blocks : List (Option Block)) (inode_id : Int) :
    Nat → Int → Int → Except Fault (Int × Int)
  | 0, _, _ => throw Fault.segfault
  | fuel + 1, block_id_1, pos_1 => do
    let record ← get_rec blocks block_id_1 pos_1
    if record.inode_id ≠ inode_id then
      if pos_1 + 1 = 4 then unlink_find blocks inode_id fuel (block_id_1 + 1) 0
      else unlink_find blocks inode_id fuel block_id_1 (pos_1 + 1)
    else pure (block_id_1, pos_1)

/-- The loop `for (i = 0; size > 0 && i < BLOCKS_PER_FILE; ++i)` of `myfs2_unlink`
that frees the blocks of an inode, over the blocks from `blocks[i]` on. -/
def free_blocks : Int → List (Option Block) → List (Option Block)
  | _, [] => []
  | size, b :: bs =>
    if size > 0 then none :: free_blocks (size - (if size < BLOCK_SIZE then size else BLOCK_SIZE)) bs
    else b :: bs

/-- The function `myfs2_unlink(path)`.  `strcpy(record->name, record_0->name)` copies
the name of one record to another, where it fits. -/
def myfs2_unlink (st : FS) (path : List Char) : Except Fault (FS × Int) := do
  let to_unlink ← lookup st path
  let inode_id ← get_inode_id st to_unlink
  let pl ← split_path path
  let parent_node ← lookup st pl.1
  let p ← deref st parent_node
  let slot ← unlink_find p.blocks inode_id (BLOCKS_PER_FILE * 4 + 1) 0 0
  let block_id_0 := Int.tdiv (p.size - 1) 4
  let pos_0 := Int.tmod (p.size - 1) 4
  let record_0 ← get_rec p.blocks block_id_0 pos_0
  let blocks ← set_rec p.blocks slot.1 slot.2 record_0
  let st := store st parent_node { p with blocks := blocks, size := p.size - 1 }
  let st ← modify st to_unlink (fun n => { n with n_links := n.n_links - 1 })
  let n ← deref st to_unlink
  if n.n_links = 0 then
    pure (store st to_unlink
      { n with type := TYPE_NIL,
               blocks := free_blocks n.size (n.blocks.take BLOCKS_PER_FILE)
                           ++ n.blocks.drop BLOCKS_PER_FILE,
               size := 0 }, 0)
  else pure (st, 0)

/-- The function `myfs2_rmdir(path)`. -/
def myfs2_rmdir (st : FS) (path : List Char) : Except Fault (FS × Int) := do
  let node ← deref st (← lookup st path)
  if node.size > 2 then pure (st, -ENOTEMPTY)
  else
    let r ← myfs2_unlink st path
    let pl ← split_path path
    let parent_node ← lookup r.1 pl.1
    let st ← modify r.1 parent_node (fun n => { n with n_links := n.n_links - 1 })
    pure (st, r.2)

/-! ## File operations -/

/-- The call `memcpy(dst + off, src, src.length)` into a `char` block. -/
def memcpy_at (dst : List Char) (off : Int) (src : List Char) : Except Fault (List Char) :=
  if 0 ≤ off ∧ off.toNat + src.length ≤ dst.length then
    pure (dst.take off.toNat ++ src ++ dst.drop (off.toNat + src.length))
  else throw Fault.overrun

/-- The block `blocks[block_id]` of `myfs2_write`, as a `char` buffer, after the
statement `if (!blocks[block_id]) blocks[block_id] = calloc(1, BLOCK_SIZE);`. -/
def block_or_calloc : Option Block → Except Fault (List Char)
  | none => pure zero_data
  | some blk => data_of (some blk)

/-- The loop `while (szz > 0 && block_id < BLOCKS_PER_FILE)` of `myfs2_write`, over
the blocks from `blocks[block_id]` on: the new blocks and the final `szz`. -/
def write_loop : List (Option Block) → Int → Int → List Char →
    Except Fault (List (Option Block) × Int)
  | [], _, szz, _ => pure ([], szz)
  | b :: bs, block_offset, szz, dataptr =>
    if szz > 0 then do
      let blk ← block_or_calloc b
      let n := if szz < BLOCK_SIZE - block_offset then szz else BLOCK_SIZE - block_offset
      let blk ← memcpy_at blk block_offset (dataptr.take n.toNat)
      if szz - n > 0 then do
        let r ← write_loop bs 0 (szz - n) (dataptr.drop n.toNat)
        pure (some (Block.data blk) :: r.1, r.2)
      else pure (some (Block.data blk) :: bs, szz - n)
    else pure (b :: bs, szz)

/-- Lines 546-575 of `myfs2_write` on the inode `*node`: the new inode and the
value returned. -/
def write_node (node : Inode) (buf : List Char) (offset : Int) : Except Fault (Inode × Int) :=
  let size : Int := buf.length
  let len := u64 node.size
  let szz := i32 size
  if u64 offset ≤ len then
    let block_id := i32 (Int.tdiv offset BLOCK_SIZE)
    let block_offset := i32 (Int.tmod offset BLOCK_SIZE)
    if 0 < szz ∧ block_id < 0 then throw Fault.segfault
    else do
      let r ← write_loop ((node.blocks.take BLOCKS_PER_FILE).drop block_id.toNat)
                block_offset szz buf
      let size := u64 (size - r.2)
      pure ({ node with
                blocks := (node.blocks.take BLOCKS_PER_FILE).take block_id.toNat ++ r.1
                            ++ node.blocks.drop BLOCKS_PER_FILE,
                size := i32 (offset + size) }, i32 size)
  else pure (node, 0)

/-- The function `myfs2_write(path, buf, size, offset, fi)`, with `size = buf.length`. -/
def myfs2_write (st : FS) (path : List Char) (buf : List Char) (offset : Int) :
    Except Fault (FS × Int) := do
  let node ← lookup st path
  let n ← deref st node
  let sn ← (if n.type = TYPE_NIL then do
      let r ← get_bad_inode st
      match r with
      | none => throw Fault.segfault
      | some a => do
        let st ← modify st (Ptr.node a) (fun n => { n with type := TYPE_REG })
        let last_node ← get_inode st (-1)
        let st ← modify st (Ptr.node last_node) (fun n => { n with next := some a })
        let st ← modify st (Ptr.node a) (fun n => { n with prev := some last_node, size := 0 })
        let parent_node ← lookup st []
        let r ← dir_reserve st parent_node
        let id ← get_inode_id r.1 (Ptr.node a)
        let st ← dir_put r.1 parent_node r.2.1 r.2.2 id []
        pure (st, Ptr.node a)
    else pure (st, node) : Except Fault (FS × Ptr))
  let n ← deref sn.1 sn.2
  if n.type ≠ TYPE_REG then pure (sn.1, -ENOENT)
  else do
    let r ← write_node n buf offset
    pure (store sn.1 sn.2 r.1, r.2)

/-- The loop `while (szz > 0)` of `myfs2_read`, over the blocks from `blocks[idx]`
on: the bytes copied to `data`.  `room` is the number of bytes of `data` from
`dataptr` on; a `memcpy` of more than `room` bytes writes past the end of `data`. -/
def read_loop : List (Option Block) → Int → Nat → Except Fault (List Char)
  | [], szz, _ => if szz > 0 then throw Fault.segfault else pure []
  | b :: bs, szz, room =>
    if szz > 0 then do
      let szz_to_read := if szz < BLOCK_SIZE then szz else BLOCK_SIZE
      let d ← data_of b
      if d.length < szz_to_read.toNat then throw Fault.overrun
      else if room < szz_to_read.toNat then throw Fault.overrun
      else do
        let rest ← read_loop bs (szz - szz_to_read) (room - szz_to_read.toNat)
        pure (d.take szz_to_read.toNat ++ rest)
    else pure []

/-- Lines 326-351 of `myfs2_read` on the inode `*node`: the value returned and the
bytes copied to `buf`.  The buffer `data = calloc(1, size)` has the requested
`size` bytes, and the loop copies the whole file into it; `memcpy(buf, data +
offset, size)` then reads `data` from `offset` on. -/
def read_node (node : Inode) (size : Nat) (offset : Int) : Except Fault (Int × List Char) := do
  let len := u64 node.size
  let szz := i32 len
  let copied ← read_loop (node.blocks.take BLOCKS_PER_FILE) szz size
  let data := copied ++ List.replicate (size - copied.length) (Char.ofNat 0)
  if u64 offset < len then
    let count : Int := if u64 (u64 offset + size) > len then u64 (len - u64 offset) else size
    if (size : Int) < u64 offset + count then throw Fault.overrun
    else pure (i32 count, (data.drop (u64 offset).toNat).take count.toNat)
  else pure (0, [])

/-- The function `myfs2_read(path, buf, size, offset, fi)`: the value returned and
the bytes copied to `buf`. -/
def myfs2_read (st : FS) (path : List Char) (size : Nat) (offset : Int) :
    Except Fault (Int × List Char) := do
  let node ← deref st (← lookup st path)
  if node.type ≠ TYPE_REG then pure (-ENOENT, [])
  else read_node node size offset

/-- The function `myfs2_readlink(path, buf, size)`: the value returned and the
string left in `buf`. -/
def myfs2_readlink (st : FS) (path : List Char) (size : Nat) : Except Fault (Int × List Char) := do
  let node ← deref st (← lookup st path)
  if node.type ≠ TYPE_LNK then pure (-ENOENT, [])
  else do
    let realpath ← data_of (← get_block node.blocks 0)
    pure (0, realpath.take size)

/-- The function `myfs2_truncate(path, offset)`. -/
def myfs2_truncate (st : FS) (_path : List Char) (_offset : Int) : Except Fault (FS × Int) :=
  pure (st, 0)

/-- The function `myfs2_utimens(path, ts)`. -/
def myfs2_utimens (st : FS) (_path : List Char) (_ts : Int × Int) : Except Fault (FS × Int) :=
  pure (st, 0)

/-- The function `myfs2_open(path, fi)`. -/
def myfs2_open (st : FS) (path : List Char) : Except Fault Int := do
  let node ← deref st (← lookup st path)
  if node.type = TYPE_NIL then pure (-ENOENT) else pure 0

/-! ## Scenarios

States reached from `init_fs` by sequences of operations; they are the concrete
inputs of the theorems that evaluate the program. -/

/-- The state left by `op`, run in the state left by `s`. -/
def run_op (s : Except Fault FS) (op : FS → Except Fault (FS × Int)) : Except Fault FS := do
  let st ← s
  let r ← op st
  pure r.1

/-- The state after `mknod /b`. -/
def fs_one_file : Except Fault FS :=
  run_op (pure init_fs) (fun st => myfs2_mknod st "/b".toList)

/-- The state after `mknod /a; link /a /b`. -/
def fs_linked : Except Fault FS :=
  run_op (run_op (pure init_fs) (fun st => myfs2_mknod st "/a".toList))
    (fun st => myfs2_link st "/a".toList "/b".toList)

/-- The state after `mknod /a; mkdir /d; unlink /a`: inode 1 is free, inode 2 is the
directory `/d`. -/
def fs_free_slot : Except Fault FS :=
  run_op (run_op (run_op (pure init_fs) (fun st => myfs2_mknod st "/a".toList))
    (fun st => myfs2_mkdir st "/d".toList)) (fun st => myfs2_unlink st "/a".toList)

/-- The state after `mknod /x; mknod /y; unlink /x; mkdir /e; mkdir /d; mknod /d/c`. -/
def fs_shifted_ids : Except Fault FS :=
  run_op (run_op (run_op (run_op (run_op (run_op (pure init_fs)
    (fun st => myfs2_mknod st "/x".toList)) (fun st => myfs2_mknod st "/y".toList))
    (fun st => myfs2_unlink st "/x".toList)) (fun st => myfs2_mkdir st "/e".toList))
    (fun st => myfs2_mkdir st "/d".toList)) (fun st => myfs2_mknod st "/d/c".toList)

/-- The fields of an inode that a caller can observe: type, size, link count, blocks. -/
def observe (st : FS) (a : Nat) : Except Fault (Nat × Int × Int × List (Option Block)) := do
  let n ← deref st (Ptr.node a)
  pure (n.type, n.size, n.n_links, n.blocks.filter Option.isSome)

/-! ## Well-formed regular files -/

/-- A present block is a `char[BLOCK_SIZE]`. -/
def data_block_ok : Option Block → Bool
  | none => true
  | some (Block.data d) => d.length == BLOCK_SIZE
  | some (Block.recs _) => false

/-- The blocks of a regular file. -/
def RegBlocks (blocks : List (Option Block)) : Prop :=
  blocks.length = BLOCKS_PER_FILE ∧ blocks.all data_block_ok = true

instance (blocks : List (Option Block)) : Decidable (RegBlocks blocks) := by
  unfold RegBlocks; infer_instance

/-- The `char` buffer that `myfs2_write` copies into, for the block pointer `b`. -/
def block_bytes : Option Block → List Char
  | none => zero_data
  | some (Block.data d) => d
  | some (Block.recs _) => []

/-- The state after `mknod /a`: `/a` is inode 1, an empty regular file. -/
def fs_with_file : FS :=
  match myfs2_mknod init_fs "/a".toList with
  | Except.ok r => r.1
  | Except.error _ => init_fs

/-- The state after `mknod /a; write /a "hello" 0`: `/a` is inode 1 and holds 5 bytes. -/
def fs_hello : FS :=
  match myfs2_write fs_with_file "/a".toList "hello".toList 0 with
  | Except.ok r => r.1
  | Except.error _ => init_fs

/-- A state in which `/a` is inode 1, a regular file of `BLOCKS_PER_FILE * BLOCK_SIZE`
bytes, all zero. -/
def fs_full_file : FS :=
  store fs_with_file (Ptr.node 1)
    { type := TYPE_REG, size := 4096, n_links := 1,
      blocks := List.replicate BLOCKS_PER_FILE (some (Block.data zero_data)),
      next := none, prev := some 0 }

/-- A value returned by an operation that is an error: a negated `errno`. -/
def is_error (rc : Int) : Bool := decide (rc < 0)

/-- The inode of an empty regular file as `myfs2_mknod` leaves it when it is the
second inode of the chain. -/
def empty_file : Inode :=
  { type := TYPE_REG, size := 0, n_links := 1,
    blocks := List.replicate BLOCKS_PER_FILE none, next := none, prev := some 0 }

/-! ## `myfs2_readdir` -/

/-- The inner loop of `myfs2_readdir` (over `j`): the names passed to `filler`, and
`watched`. -/
def readdir_inner (records : List DirRecord) (size : Int) :
    Nat → Nat → Int → Except Fault (List (List Char) × Int)
  | 0, _, watched => pure ([], watched)
  | n + 1, j, watched =>
    if watched < size then
      match records[j]? with
      | none => throw Fault.segfault
      | some r => do
        let rest ← readdir_inner records size n (j + 1) (watched + 1)
        pure (r.name :: rest.1, rest.2)
    else pure ([], watched)

/-- The outer loop of `myfs2_readdir` (over `i`), over the blocks from `blocks[i]` on. -/
def readdir_outer (size : Int) : List (Option Block) → Int → Except Fault (List (List Char))
  | [], _ => pure []
  | b :: bs, watched =>
    if watched < size then do
      let rs ← recs_of b
      let r ← readdir_inner rs size 4 0 watched
      let rest ← readdir_outer size bs r.2
      pure (r.1 ++ rest)
    else pure []

/-- The function `myfs2_readdir(path, buf, filler, offset, fi)`: the value returned
and the names passed to `filler`, in order. -/
def myfs2_readdir (st : FS) (path : List Char) : Except Fault (Int × List (List Char)) := do
  let node ← deref st (← lookup st path)
  if path.head? ≠ some '/' then pure (-ENOENT, [])
  else if node.type ≠ TYPE_DIR then pure (-ENOENT, [])
  else do
    let names ← readdir_outer node.size (node.blocks.take BLOCKS_PER_FILE) 0
    pure (0, names)


/-! ## More scenarios -/

/-- The state after `mkdir /a; mknod /a/b.txt`. -/
def fs_dir_file : Except Fault FS :=
  run_op (run_op (pure init_fs) (fun st => myfs2_mkdir st "/a".toList))
    (fun st => myfs2_mknod st "/a/b.txt".toList)

/-- The state after `unlink /`. -/
def fs_root_unlinked : Except Fault FS :=
  run_op (pure init_fs) (fun st => myfs2_unlink st "/".toList)

/-- The state after `mknod /a; write /a (129 bytes) 0; write /a (1 byte) 0`: the file
holds two blocks and its size is 1. -/
def fs_shrunk_file : Except Fault FS :=
  run_op (run_op (run_op (pure init_fs) (fun st => myfs2_mknod st "/a".toList))
    (fun st => myfs2_write st "/a".toList (List.replicate 129 'x') 0))
    (fun st => myfs2_write st "/a".toList ['y'] 0)

/-- Which of the block pointers of inode cell `a` are not `NULL`. -/
def blocks_present (st : FS) (a : Nat) : Except Fault (List Bool) := do
  let n ← deref st (Ptr.node a)
  pure (n.blocks.map Option.isSome)

/-! ## The bytes of a regular file -/

/-- The first `k` block pointers are present `char[BLOCK_SIZE]` buffers. -/
def present_first : Nat → List (Option Block) → Bool
  | 0, _ => true
  | _ + 1, [] => false
  | k + 1, b :: bs =>
    match b with
    | some (Block.data d) => d.length == BLOCK_SIZE && present_first k bs
    | _ => false

/-- Byte `i` of a file: byte `i % BLOCK_SIZE` of block `i / BLOCK_SIZE`. -/
def file_byte (blocks : List (Option Block)) (i : Nat) : Option Char :=
  match blocks[i / BLOCK_SIZE]? with
  | some (some (Block.data d)) => d[i % BLOCK_SIZE]?
  | _ => none

/-- The inode of `/a` in `fs_hello`. -/
def hello_file : Inode :=
  { type := TYPE_REG, size := 5, n_links := 1,
    blocks := some (Block.data ("hello".toList ++ List.replicate 123 (Char.ofNat 0)))
      :: List.replicate 31 none, next := none, prev := some 0 }

/-! ## The records of a directory -/

/-- The first `k` block pointers are present `struct DirRecord[4]` arrays. -/
def recs_first : Nat → List (Option Block) → Bool
  | 0, _ => true
  | _ + 1, [] => false
  | k + 1, b :: bs =>
    match b with
    | some (Block.recs rs) => rs.length == 4 && recs_first k bs
    | _ => false

/-- The blocks of a directory that holds `n` records. -/
def DirBlocks (blocks : List (Option Block)) (n : Nat) : Prop :=
  blocks.length = BLOCKS_PER_FILE ∧ n ≤ 128 ∧ recs_first ((n + 3) / 4) blocks = true

instance (blocks : List (Option Block)) (n : Nat) : Decidable (DirBlocks blocks n) := by
  unfold DirBlocks; infer_instance

/-- Record `i` of a directory: slot `i % 4` of block `i / 4`. -/
def dir_rec (blocks : List (Option Block)) (i : Nat) : Option DirRecord :=
  match blocks[i / 4]? with
  | some (some (Block.recs rs)) => rs[i % 4]?
  | _ => none

/-- The records `0 .. n - 1` of a directory, in storage order. -/
def dir_list (blocks : List (Option Block)) (n : Nat) : List (Option DirRecord) :=
  (List.range n).map (dir_rec blocks)

/-- The state after `mknod /a; mknod /b; mknod /c`: the root holds 5 records in 2
blocks. -/
def fs_three_files : FS :=
  match run_op (run_op (run_op (pure init_fs) (fun st => myfs2_mknod st "/a".toList))
    (fun st => myfs2_mknod st "/b".toList)) (fun st => myfs2_mknod st "/c".toList) with
  | Except.ok st => st
  | Except.error _ => init_fs

/-- The root inode of `fs_three_files`. -/
def three_files_root : Inode :=
  { type := TYPE_DIR, size := 5, n_links := 2,
    blocks := some (Block.recs [{ inode_id := 0, name := ['.'] },
                                { inode_id := 0, name := ['.', '.'] },
                                { inode_id := 1, name := ['a'] },
                                { inode_id := 2, name := ['b'] }])
              :: some (Block.recs [{ inode_id := 3, name := ['c'] },
                                   { inode_id := 0, name := [] },
                                   { inode_id := 0, name := [] },
                                   { inode_id := 0, name := [] }])
              :: List.replicate 30 none,
    next := some 1, prev := none }

/-! ## Scenarios with one directory -/

/-- From cell `a` on, each cell of the list is linked to the next one and the last
cell to `NULL`. -/
def chain_from : Nat → List Inode → Bool
  | _, [] => true
  | _, [n] => n.next == none
  | a, n :: m :: rest => n.next == some (a + 1) && chain_from (a + 1) (m :: rest)

/-- The inode chain is the heap in order: `0 -> 1 -> ... -> length - 1 -> NULL`. -/
def Chain (heap : List Inode) : Prop :=
  ∀ i n, heap[i]? = some n → n.next = if i + 1 < heap.length then some (i + 1) else none

/-- No inode of the heap is free. -/
def no_free (heap : List Inode) : Bool := heap.all (fun n => n.type != TYPE_NIL)

/-- Every record slot of every directory block holds the id of an inode of the heap. -/
def ids_in_table (heap : List Inode) : Bool :=
  heap.all (fun n => n.blocks.all (fun b =>
    match b with
    | some (Block.recs rs) =>
      rs.all (fun r => decide (0 ≤ r.inode_id) && decide (r.inode_id < (heap.length : Int)))
    | _ => true))

/-- The heap after `myfs2_mknod` has linked a fresh cell to the end of the chain. -/
def linked_heap (H : List Inode) (l new0 new1 : Inode) : List Inode :=
  (((H ++ [zero_inode]).set H.length new0).set (H.length - 1)
    { l with next := some H.length }).set H.length new1

/-- The inode that `myfs2_mknod` makes of a fresh cell, appended after cell `last`. -/
def fresh_file (last : Nat) : Inode :=
  { type := TYPE_REG, size := 0, n_links := 1,
    blocks := List.replicate BLOCKS_PER_FILE none, next := none, prev := some last }

/-- The root inode of `fs_with_file`. -/
def with_file_root : Inode :=
  { type := TYPE_DIR, size := 3, n_links := 2,
    blocks := some (Block.recs [{ inode_id := 0, name := ['.'] },
                                { inode_id := 0, name := ['.', '.'] },
                                { inode_id := 1, name := ['a'] },
                                { inode_id := 0, name := [] }])
              :: List.replicate 31 none,
    next := some 1, prev := none }

/-- The state after `mknod /a; mknod /a`. -/
def fs_file_twice : FS :=
  match myfs2_mknod fs_with_file "/a".toList with
  | Except.ok r => r.1
  | Except.error _ => init_fs

/-! # Theorems -/

/-! ## Machine integers, blocks, frames -/

theorem i32_of_range (x : Int) (h1 : -2147483648 ≤ x) (h2 : x < 2147483648) : i32 x = x := by
  unfold i32; omega

theorem u64_of_range (x : Int) (h1 : 0 ≤ x) (h2 : x < 18446744073709551616) : u64 x = x := by
  unfold u64; omega

theorem u64_nonneg (x : Int) : 0 ≤ u64 x := by
  unfold u64; omega

theorem memcpy_at_ok (dst : List Char) (off : Nat) (src : List Char)
    (h : off + src.length ≤ dst.length) :
    memcpy_at dst off src = Except.ok (dst.take off ++ src ++ dst.drop (off + src.length)) := by
  unfold memcpy_at
  simp [h]
  rfl

theorem block_bytes_length (b : Option Block) (h : data_block_ok b = true) :
    (block_bytes b).length = 128 := by
  cases b with
  | none => simp [block_bytes, zero_data]
  | some blk =>
    cases blk with
    | data d => simpa [data_block_ok, block_bytes] using h
    | recs r => simp [data_block_ok] at h

theorem block_or_calloc_ok (b : Option Block) (h : data_block_ok b = true) :
    block_or_calloc b = Except.ok (block_bytes b) := by
  cases b with
  | none => rfl
  | some blk =>
    cases blk with
    | data d => rfl
    | recs r => simp [data_block_ok] at h

theorem read_loop_zero (bs : List (Option Block)) (room : Nat) :
    read_loop bs 0 room = Except.ok [] := by
  cases bs <;> simp [read_loop] <;> rfl

theorem except_bind_ok {α β : Type} (a : α) (f : α → Except Fault β) :
    (Except.ok a >>= f) = f a := rfl

/-- write_loop on well-formed blocks copies everything when there is room. -/
theorem write_loop_ok (bs : List (Option Block)) :
    ∀ (off : Nat) (data : List Char), bs.all data_block_ok = true → off < 128 →
      off + data.length ≤ 128 * bs.length →
      ∃ bs', write_loop bs off data.length data = Except.ok (bs', 0) ∧
        bs'.length = bs.length ∧ bs'.all data_block_ok = true ∧
        (off = 0 → read_loop bs' data.length data.length = Except.ok data) := by
  induction bs with
  | nil =>
    intro off data _ hoff hlen
    simp at hlen
    obtain ⟨rfl, rfl⟩ := hlen
    exact ⟨[], rfl, rfl, rfl, fun _ => rfl⟩
  | cons b bs ih =>
    intro off data hall hoff hlen
    simp only [List.all_cons, Bool.and_eq_true] at hall
    obtain ⟨hb, hbs⟩ := hall
    simp only [List.length_cons] at hlen
    have hbl := block_bytes_length b hb
    unfold write_loop
    by_cases hd : (data.length : Int) > 0
    · simp only [hd, if_true, block_or_calloc_ok b hb, BLOCK_SIZE, except_bind_ok]
      -- the chunk length
      by_cases hfit : (data.length : Int) < ((128 : Nat) : Int) - (off : Int)
      · -- everything fits in this block
        simp only [hfit, if_true, Int.toNat_ofNat, List.take_length, sub_self, gt_iff_lt,
          lt_self_iff_false, if_false]
        rw [memcpy_at_ok _ _ _ (by omega)]
        simp only [except_bind_ok]
        refine ⟨_, rfl, by simp, ?_, ?_⟩
        · simp only [List.all_cons, hbs, Bool.and_true, data_block_ok, BLOCK_SIZE]
          simp; omega
        · intro h0
          subst h0
          unfold read_loop
          have h1 : (data.length : Int) < ((128 : Nat) : Int) := by omega
          simp only [hd, if_true, BLOCK_SIZE, h1, data_of, except_bind_ok, Int.toNat_ofNat,
            lt_self_iff_false, if_false]
          simp [read_loop_zero]
      · simp only [hfit, if_false]
        have hn : ((128 : Nat) : Int) - (off : Int) = ((128 - off : Nat) : Int) := by omega
        have hge : 128 - off ≤ data.length := by omega
        have htk : (List.take (128 - off) data).length = 128 - off := by
          rw [List.length_take]; omega
        rw [hn, Int.toNat_ofNat, memcpy_at_ok _ _ _ (by rw [htk, hbl]; omega)]
        simp only [except_bind_ok]
        have hdl : (List.drop (128 - off) data).length = data.length - (128 - off) :=
          List.length_drop _ _
        have hcast : (data.length : Int) - ((128 - off : Nat) : Int)
            = ((List.drop (128 - off) data).length : Int) := by
          rw [hdl]; omega
        rw [hcast]
        by_cases hmore : ((List.drop (128 - off) data).length : Int) > 0
        · simp only [hmore, if_true]
          obtain ⟨bs1, hw, hl1, hok1, hrd1⟩ := ih 0 (List.drop (128 - off) data) hbs (by omega)
            (by rw [hdl]; omega)
          simp only [Nat.cast_zero] at hw
          rw [hw]
          simp only [except_bind_ok]
          refine ⟨_, rfl, by simp [hl1], ?_, ?_⟩
          · simp only [List.all_cons, hok1, Bool.and_true, data_block_ok, BLOCK_SIZE]
            simp [htk, hbl]; omega
          · intro h0
            subst h0
            unfold read_loop
            have h1 : ¬ (data.length : Int) < ((128 : Nat) : Int) := by omega
            have h2 : ¬ data.length < 128 := by omega
            simp only [hd, if_true, BLOCK_SIZE, h1, if_false, data_of, except_bind_ok,
              Int.toNat_ofNat, h2]
            have hcast2 : (data.length : Int) - ((128 : Nat) : Int)
                = ((List.drop 128 data).length : Int) := by
              simpa using hcast
            have hroom : data.length - 128 = (List.drop 128 data).length :=
              (List.length_drop _ _).symm
            rw [hcast2, hroom, hrd1 rfl]
            simp [htk]
        · simp only [hmore, if_false]
          have hz : ((List.drop (128 - off) data).length : Int) = 0 := by omega
          rw [hz]
          refine ⟨_, rfl, by simp, ?_, ?_⟩
          · simp only [List.all_cons, hbs, Bool.and_true, data_block_ok, BLOCK_SIZE]
            simp [htk, hbl]; omega
          · intro h0
            subst h0
            unfold read_loop
            have h1 : ¬ (data.length : Int) < ((128 : Nat) : Int) := by omega
            have h2 : ¬ data.length < 128 := by omega
            simp only [hd, if_true, BLOCK_SIZE, h1, if_false, data_of, except_bind_ok,
              Int.toNat_ofNat, h2]
            have hcast2 : (data.length : Int) - ((128 : Nat) : Int) = 0 := by
              rw [← hz]; simpa using hcast
            rw [hcast2, read_loop_zero]
            have : data.length = 128 := by omega
            simp [htk, this]
    · have h0 : data.length = 0 := by omega
      refine ⟨b :: bs, ?_, rfl, ?_, ?_⟩
      · simp [hd, h0]; rfl
      · simp [hb, hbs]
      · intro _; simp [h0, read_loop]
        have : data = [] := List.length_eq_zero.mp h0
        subst this; rfl

/-! ### Frame: lookup does not read a node that is not a directory -/

theorem getElem?_set_same_next (heap : List Inode) (a : Nat) (f g : Inode)
    (hf : heap[a]? = some f) (hn : g.next = f.next) (curr : Nat) :
    ((heap.set a g)[curr]?).map Inode.next = (heap[curr]?).map Inode.next := by
  rw [List.getElem?_set]
  by_cases h : a = curr
  · subst h
    have hlt : a < heap.length := by
      rcases Nat.lt_or_ge a heap.length with h | h
      · exact h
      · rw [List.getElem?_eq_none h] at hf; cases hf
    simp [hlt, hf, hn]
  · simp [h]

theorem get_inode_steps_set (heap : List Inode) (a : Nat) (f g : Inode)
    (hf : heap[a]? = some f) (hn : g.next = f.next) :
    ∀ (k curr : Nat), get_inode_steps (heap.set a g) k curr = get_inode_steps heap k curr := by
  intro k
  induction k with
  | zero => intro curr; rfl
  | succ k ih =>
    intro curr
    have h := getElem?_set_same_next heap a f g hf hn curr
    unfold get_inode_steps
    cases h1 : (heap.set a g)[curr]? with
    | none =>
      cases h2 : heap[curr]? with
      | none => rfl
      | some n2 => rw [h1, h2] at h; cases h
    | some n1 =>
      cases h2 : heap[curr]? with
      | none => rw [h1, h2] at h; cases h
      | some n2 =>
        rw [h1, h2] at h
        simp only [Option.map_some', Option.some.injEq] at h
        simp only [h]
        cases n2.next with
        | none => rfl
        | some nx => exact ih nx

theorem get_inode_last_set (heap : List Inode) (a : Nat) (f g : Inode)
    (hf : heap[a]? = some f) (hn : g.next = f.next) :
    ∀ (k curr : Nat), get_inode_last (heap.set a g) k curr = get_inode_last heap k curr := by
  intro k
  induction k with
  | zero => intro curr; rfl
  | succ k ih =>
    intro curr
    have h := getElem?_set_same_next heap a f g hf hn curr
    unfold get_inode_last
    cases h1 : (heap.set a g)[curr]? with
    | none =>
      cases h2 : heap[curr]? with
      | none => rfl
      | some n2 => rw [h1, h2] at h; cases h
    | some n1 =>
      cases h2 : heap[curr]? with
      | none => rw [h1, h2] at h; cases h
      | some n2 =>
        rw [h1, h2] at h
        simp only [Option.map_some', Option.some.injEq] at h
        simp only [h]
        cases n2.next with
        | none => rfl
        | some nx => exact ih nx

theorem deref_node_eq (st : FS) (a : Nat) (f : Inode) :
    deref st (Ptr.node a) = Except.ok f ↔ st.heap[a]? = some f := by
  show (match st.heap[a]? with
    | some n => (pure n : Except Fault Inode)
    | none => throw Fault.segfault) = Except.ok f ↔ _
  cases st.heap[a]? with
  | none => simp [throw, throwThe, MonadExceptOf.throw]
  | some n => simp [pure, Except.pure]

theorem deref_node_lt (st : FS) (a : Nat) (f : Inode) (hf : deref st (Ptr.node a) = Except.ok f) :
    a < st.heap.length := by
  rw [deref_node_eq] at hf
  rcases Nat.lt_or_ge a st.heap.length with h | h
  · exact h
  · rw [List.getElem?_eq_none h] at hf; cases hf

theorem get_inode_store (st : FS) (p : Ptr) (f g : Inode) (hf : deref st p = Except.ok f)
    (hn : g.next = f.next) (id : Int) : get_inode (store st p g) id = get_inode st id := by
  cases p with
  | bad => rfl
  | node a =>
    have hf2 : st.heap[a]? = some f := (deref_node_eq st a f).mp hf
    unfold get_inode store
    simp only [List.length_set]
    rw [get_inode_steps_set _ _ _ _ hf2 hn, get_inode_last_set _ _ _ _ hf2 hn]

/-- Two states between which `lookup` cannot tell: the same chain, and the same
cells except for cells that are not directories in either. -/
theorem lookup_loop_congr (st st2 : FS)
    (hget : ∀ id, get_inode st2 id = get_inode st id)
    (hnode : ∀ cur, deref st2 (Ptr.node cur) = deref st (Ptr.node cur) ∨
      ∃ n n2, deref st (Ptr.node cur) = Except.ok n ∧ deref st2 (Ptr.node cur) = Except.ok n2 ∧
        n.type ≠ TYPE_DIR ∧ n2.type ≠ TYPE_DIR) :
    ∀ (segs : List (List Char)) (cur : Nat) (found : Bool),
      lookup_loop st2 segs cur found = lookup_loop st segs cur found := by
  intro segs
  induction segs with
  | nil => intro cur found; rfl
  | cons seg rest ih =>
    intro cur found
    unfold lookup_loop
    rcases hnode cur with h | ⟨n, n2, h1, h2, h3, h4⟩
    · rw [h]
      cases hd : deref st (Ptr.node cur) with
      | error e => rfl
      | ok node =>
        simp only [except_bind_ok]
        by_cases ht : node.type ≠ TYPE_DIR
        · rw [if_pos ht, if_pos ht]
        · rw [if_neg ht, if_neg ht]
          cases lookup_outer seg node.size (List.take BLOCKS_PER_FILE node.blocks) 0 with
          | error e => rfl
          | ok r =>
            simp only [except_bind_ok]
            cases r with
            | none => exact ih cur false
            | some id =>
              simp only [hget id]
              cases get_inode st id with
              | error e => rfl
              | ok nxt => simp only [except_bind_ok]; exact ih nxt true
    · rw [h1, h2]
      simp only [except_bind_ok]
      rw [if_pos h3, if_pos h4]

theorem deref_store_same (st : FS) (p : Ptr) (f g : Inode) (hf : deref st p = Except.ok f) :
    deref (store st p g) p = Except.ok g := by
  cases p with
  | bad => rfl
  | node a =>
    have hlt := deref_node_lt st a f hf
    rw [deref_node_eq]
    simp [store, List.getElem?_set, hlt]

/-- Assigning to an inode that is not a directory, without changing its type or
its `next` link, does not change what any path resolves to. -/
theorem lookup_store_not_dir (st : FS) (p : Ptr) (f g : Inode)
    (hf : deref st p = Except.ok f) (ht : f.type ≠ TYPE_DIR) (hg : g.type = f.type)
    (hn : g.next = f.next) (path : List Char) :
    lookup (store st p g) path = lookup st path := by
  unfold lookup
  by_cases hp : path = ['/']
  · simp only [hp, if_true]
  · simp only [hp, if_false]
    by_cases hlong : 32 ≤ path.length
    · rw [if_pos hlong, if_pos hlong]
    rw [if_neg hlong, if_neg hlong]
    apply lookup_loop_congr
    · exact get_inode_store st p f g hf hn
    · intro cur
      cases p with
      | bad => left; rfl
      | node a =>
        by_cases hc : a = cur
        · subst hc
          right
          exact ⟨f, g, hf, deref_store_same st _ f g hf, ht, by rw [hg]; exact ht⟩
        · left
          show (match (st.heap.set a g)[cur]? with
            | some n => (pure n : Except Fault Inode)
            | none => throw Fault.segfault) = (match st.heap[cur]? with
            | some n => (pure n : Except Fault Inode)
            | none => throw Fault.segfault)
          rw [List.getElem?_set]
          simp [hc]

/-! ### `write_node` and `read_node` on a regular file -/

theorem room_in_blocks (o n : Nat) (h : o + n ≤ 4096) :
    o % 128 + n ≤ 128 * (32 - o / 128) := by
  omega

theorem i32_small (n : Nat) (h : n ≤ 4096) : i32 (n : Int) = n :=
  i32_of_range _ (by omega) (by omega)

theorem u64_small (n : Nat) (h : n ≤ 4096) : u64 (n : Int) = n :=
  u64_of_range _ (by omega) (by omega)

theorem i32_add_small (a b : Nat) (h : a + b ≤ 4096) : i32 ((a : Int) + b) = (a : Int) + b :=
  i32_of_range _ (by omega) (by omega)

theorem div_128_le (o : Nat) (h : o ≤ 4096) : o / 128 ≤ 32 := by
  omega

theorem mod_128_le (o : Nat) : o % 128 ≤ 4096 := by
  omega

theorem take_add_length (q : Nat) (hq : q ≤ 32) : min q 32 + (32 - q) = 32 := by
  omega

theorem write_node_ok (node : Inode) (buf : List Char) (o : Nat)
    (hblk : RegBlocks node.blocks) (ho : (o : Int) ≤ u64 node.size)
    (hcap : o + buf.length ≤ 4096) :
    ∃ blocks, write_node node buf o
        = Except.ok ({ node with blocks := blocks, size := (o : Int) + buf.length },
            (buf.length : Int)) ∧
      RegBlocks blocks ∧
      (o = 0 → read_loop blocks buf.length buf.length = Except.ok buf) := by
  obtain ⟨hlen, hall⟩ := hblk
  simp only [BLOCKS_PER_FILE] at hlen
  have hroom := room_in_blocks o buf.length hcap
  have hq : o / 128 ≤ 32 := div_128_le o (le_trans (Nat.le_add_right _ _) hcap)
  have hneg : ¬ ((0 : Int) < (buf.length : Int) ∧ ((o / 128 : Nat) : Int) < 0) :=
    fun h => absurd h.2 (not_lt.mpr (Int.ofNat_nonneg _))
  have hu1 : u64 (o : Int) = o := u64_small o (le_trans (Nat.le_add_right _ _) hcap)
  have hu3 : u64 (buf.length : Int) = buf.length :=
    u64_small _ (le_trans (Nat.le_add_left _ _) hcap)
  have hi1 : i32 (buf.length : Int) = buf.length :=
    i32_small _ (le_trans (Nat.le_add_left _ _) hcap)
  have hi2 : i32 ((o / 128 : Nat) : Int) = ((o / 128 : Nat) : Int) :=
    i32_small _ (le_trans hq (by decide))
  have hi3 : i32 ((o % 128 : Nat) : Int) = ((o % 128 : Nat) : Int) :=
    i32_small _ (mod_128_le o)
  have hi4 : i32 ((o : Int) + (buf.length : Int)) = (o : Int) + buf.length :=
    i32_add_small o buf.length hcap
  have hdiv : Int.tdiv (o : Int) ((128 : Nat) : Int) = ((o / 128 : Nat) : Int) :=
    (Int.ofNat_tdiv o 128).symm
  have hmod : Int.tmod (o : Int) ((128 : Nat) : Int) = ((o % 128 : Nat) : Int) :=
    (Int.ofNat_tmod o 128).symm
  have htake : List.take 32 node.blocks = node.blocks :=
    List.take_of_length_le (le_of_eq hlen)
  have hdrop : List.drop 32 node.blocks = [] := List.drop_of_length_le (le_of_eq hlen)
  have halld : (List.drop (o / 128) node.blocks).all data_block_ok = true := by
    rw [List.all_eq_true] at hall ⊢
    intro x hx
    exact hall x (List.mem_of_mem_drop hx)
  obtain ⟨bs1, hw, hl1, hok1, hrd1⟩ := write_loop_ok (List.drop (o / 128) node.blocks)
    (o % 128) buf halld (Nat.mod_lt _ (by decide)) (by rw [List.length_drop, hlen]; exact hroom)
  refine ⟨List.take (o / 128) node.blocks ++ bs1, ?_, ⟨?_, ?_⟩, ?_⟩
  · unfold write_node
    simp only [hu1, ho, if_true, BLOCK_SIZE, BLOCKS_PER_FILE, hdiv, hmod, hi1, hi2, hi3,
      htake, hdrop, Int.toNat_ofNat, List.append_nil]
    rw [if_neg hneg, hw]
    simp only [except_bind_ok, sub_zero]
    simp only [hu3, hi4, hi1]
    rfl
  · simp only [List.length_append, List.length_take, hl1, List.length_drop, BLOCKS_PER_FILE,
      hlen]
    exact take_add_length _ hq
  · rw [List.all_append, hok1, Bool.and_true, List.all_eq_true]
    rw [List.all_eq_true] at hall
    intro x hx
    exact hall x (List.mem_of_mem_take hx)
  · intro h0
    subst h0
    simpa using hrd1 rfl

theorem read_node_all (node : Inode) (buf : List Char) (hlen : node.blocks.length = 32)
    (hsize : node.size = buf.length) (hcap : buf.length ≤ 4096)
    (hrd : read_loop node.blocks buf.length buf.length = Except.ok buf) :
    read_node node buf.length 0 = Except.ok ((buf.length : Int), buf) := by
  have hu2 : u64 node.size = buf.length := by
    rw [hsize]; exact u64_of_range _ (by omega) (by omega)
  have hi1 : i32 (buf.length : Int) = buf.length := i32_of_range _ (by omega) (by omega)
  have hu0 : u64 0 = 0 := rfl
  have htake : List.take 32 node.blocks = node.blocks := List.take_of_length_le (by omega)
  unfold read_node
  simp only [hu2, hi1, BLOCKS_PER_FILE, htake, hrd, except_bind_ok, hu0, zero_add,
    Int.toNat_zero, List.drop_zero, sub_zero, Nat.sub_self, List.replicate_zero,
    List.append_nil]
  by_cases hpos : (0 : Int) < (buf.length : Int)
  · rw [if_pos hpos]
    have hu3 : u64 (buf.length : Int) = buf.length := u64_of_range _ (by omega) (by omega)
    simp only [hu3, gt_iff_lt, lt_self_iff_false, if_false, hi1, Int.toNat_ofNat,
      List.take_length]
    rfl
  · rw [if_neg hpos]
    have h0 : buf.length = 0 := by omega
    have hnil : buf = [] := List.length_eq_zero.mp h0
    subst hnil
    rfl

/-! ### The operations on a path that resolves to a regular file -/

theorem myfs2_write_reg (st : FS) (path : List Char) (p : Ptr) (f : Inode) (buf : List Char)
    (offset : Int) (hp : lookup st path = Except.ok p) (hf : deref st p = Except.ok f)
    (hreg : f.type = TYPE_REG) :
    myfs2_write st path buf offset
      = (write_node f buf offset >>= fun r => pure (store st p r.1, r.2)) := by
  unfold myfs2_write
  have h1 : ¬ f.type = TYPE_NIL := by rw [hreg]; decide
  have h2 : ¬ f.type ≠ TYPE_REG := by rw [hreg]; decide
  simp only [hp, except_bind_ok, hf, if_neg h1]
  show (Except.ok (st, p) >>= _) = _
  simp only [except_bind_ok, hf, if_neg h2]

theorem myfs2_read_reg (st : FS) (path : List Char) (p : Ptr) (f : Inode) (size : Nat)
    (offset : Int) (hp : lookup st path = Except.ok p) (hf : deref st p = Except.ok f)
    (hreg : f.type = TYPE_REG) :
    myfs2_read st path size offset = read_node f size offset := by
  unfold myfs2_read
  have h2 : ¬ f.type ≠ TYPE_REG := by rw [hreg]; decide
  simp only [hp, except_bind_ok, hf, if_neg h2]

theorem list_set_same {α : Type} (l : List α) : ∀ (i : Nat) (a : α), l[i]? = some a → l.set i a = l := by
  induction l with
  | nil => intro i a _; rfl
  | cons x xs ih =>
    intro i a h
    cases i with
    | zero => simp at h; subst h; rfl
    | succ i => simp at h; simp [ih i a h]

theorem store_same (st : FS) (p : Ptr) (f : Inode) (hf : deref st p = Except.ok f) :
    store st p f = st := by
  cases p with
  | bad =>
    have : st.bad_node = f := by
      have h : (Except.ok st.bad_node : Except Fault Inode) = Except.ok f := hf
      exact Except.ok.inj h
    subst this; rfl
  | node a =>
    rw [deref_node_eq] at hf
    show ({ st with heap := st.heap.set a f } : FS) = st
    rw [list_set_same _ _ _ hf]

theorem write_node_beyond (node : Inode) (buf : List Char) (offset : Int)
    (h0 : 0 ≤ node.size) (h1 : node.size < offset) (h2 : offset < 18446744073709551616) :
    write_node node buf offset = Except.ok (node, 0) := by
  unfold write_node
  have hu1 : u64 offset = offset := u64_of_range _ (by omega) h2
  have hu2 : u64 node.size = node.size := u64_of_range _ h0 (by omega)
  have hn : ¬ offset ≤ node.size := by omega
  simp only [hu1, hu2, if_neg hn]
  rfl

theorem write_node_at_capacity (node : Inode) (buf : List Char) (hsz : node.size = 4096)
    (hb : buf.length < 2147483648) :
    write_node node buf 4096 = Except.ok (node, 0) := by
  unfold write_node
  have hu1 : u64 4096 = 4096 := rfl
  have hu2 : u64 node.size = 4096 := by rw [hsz]; rfl
  have hi1 : i32 (buf.length : Int) = buf.length := i32_of_range _ (by omega) (by omega)
  have hd : i32 (Int.tdiv 4096 ((128 : Nat) : Int)) = 32 := rfl
  have hm : i32 (Int.tmod 4096 ((128 : Nat) : Int)) = 0 := rfl
  have hneg : ¬ ((0 : Int) < (buf.length : Int) ∧ (32 : Int) < 0) := by omega
  simp only [hu1, hu2, le_refl, if_true, BLOCK_SIZE, BLOCKS_PER_FILE, hd, hm, hi1, if_neg hneg]
  have h32 : (32 : Int).toNat = 32 := rfl
  simp only [h32, List.drop_take, Nat.sub_self, List.take_zero, write_loop, except_bind_ok,
    List.append_nil, List.take_take, min_self, List.take_append_drop, sub_self]
  have hu0 : u64 0 = 0 := rfl
  have hi0 : i32 0 = 0 := rfl
  have hi4 : i32 4096 = node.size := by rw [hsz]; rfl
  simp only [pure, Except.pure, except_bind_ok, sub_self, hu0, hi0, add_zero, hi4,
    List.append_nil, List.take_append_drop]

/-! ## C4: a missing segment in the middle of a path -/

/-- C4 (code_bug): in the state after `mknod /b` the root has no record named `x`
(`lookup "/x"` is `bad_node`) and `/b` is inode 1; `lookup "/x/b"` does not return
`bad_node`: the scan for `x` fails, the loop goes on from the root with the next
segment and returns the inode of `/b`. -/
theorem lookup_missing_middle_segment :
    (fs_one_file >>= fun st => lookup st "/x".toList) = Except.ok Ptr.bad ∧
    (fs_one_file >>= fun st => lookup st "/b".toList) = Except.ok (Ptr.node 1) ∧
    (fs_one_file >>= fun st => lookup st "/x/b".toList) = Except.ok (Ptr.node 1) := by
  refine ⟨rfl, rfl, rfl⟩

/-! ## C2: hard links in one directory -/

/-- C2 (code_bug): after `mknod /a; link /a /b` both names are inode 1 with link
count 2; `unlink /b` lowers the link count to 1 but removes the record of `/a`
(the first record that carries inode id 1): `/a` no longer resolves and `/b`
still does. -/
theorem unlink_removes_other_name :
    (fs_linked >>= fun st => lookup st "/a".toList) = Except.ok (Ptr.node 1) ∧
    (fs_linked >>= fun st => lookup st "/b".toList) = Except.ok (Ptr.node 1) ∧
    (fs_linked >>= fun st => observe st 1) = Except.ok (TYPE_REG, 0, 2, []) ∧
    (run_op fs_linked (fun st => myfs2_unlink st "/b".toList) >>= fun st => observe st 1)
      = Except.ok (TYPE_REG, 0, 1, []) ∧
    (run_op fs_linked (fun st => myfs2_unlink st "/b".toList) >>= fun st => lookup st "/b".toList)
      = Except.ok (Ptr.node 1) ∧
    (run_op fs_linked (fun st => myfs2_unlink st "/b".toList) >>= fun st => lookup st "/a".toList)
      = Except.ok Ptr.bad := by
  refine ⟨rfl, rfl, rfl, rfl, rfl, rfl⟩

/-! ## C3, C7, C9: a create that takes a freed slot -/

/-- C3 (code_bug): in the state after `mknod /a; mkdir /d; unlink /a` inode id 2
names the live directory `/d` and the free slot is inode 1.  After `mknod /c`,
which takes slot 1, `get_inode(2)` is cell 1, the new regular file: the
directory is no longer in the chain.  The same holds after `mkdir /c`. -/
theorem create_in_freed_slot_loses_later_inodes :
    (fs_free_slot >>= fun st => get_bad_inode st) = Except.ok (some 1) ∧
    (fs_free_slot >>= fun st => get_inode st 2) = Except.ok 2 ∧
    (fs_free_slot >>= fun st => observe st 2)
      = Except.ok (TYPE_DIR, 2, 2, [some (Block.recs
          [{ inode_id := 2, name := ['.'] }, { inode_id := 0, name := ['.', '.'] },
           { inode_id := 0, name := [] }, { inode_id := 0, name := [] }])]) ∧
    (run_op fs_free_slot (fun st => myfs2_mknod st "/c".toList) >>= fun st => get_inode st 2)
      = Except.ok 1 ∧
    (run_op fs_free_slot (fun st => myfs2_mknod st "/c".toList) >>= fun st => observe st 1)
      = Except.ok (TYPE_REG, 0, 1, []) ∧
    (run_op fs_free_slot (fun st => myfs2_mkdir st "/c".toList) >>= fun st => get_inode st 2)
      = Except.ok 1 ∧
    (run_op fs_free_slot (fun st => myfs2_mkdir st "/c".toList) >>= fun st => observe st 1)
      = Except.ok (TYPE_DIR, 2, 2, [some (Block.recs
          [{ inode_id := 1, name := ['.'] }, { inode_id := 0, name := ['.', '.'] },
           { inode_id := 0, name := [] }, { inode_id := 0, name := [] }])]) := by
  refine ⟨rfl, rfl, rfl, rfl, rfl, rfl, rfl⟩

/-- C7 (code_bug): in the state after `mknod /a; mkdir /d; unlink /a` the path
`/d/f` does not resolve and its parent `/d/` resolves to inode 2, a directory
with 2 records.  `mknod /d/f` returns 0, yet `/d/f` does not resolve afterwards:
the create took slot 1, which comes before the parent in the chain, and cut the
parent off. -/
theorem mknod_in_freed_slot_not_resolved :
    (fs_free_slot >>= fun st => lookup st "/d/f".toList) = Except.ok Ptr.bad ∧
    (fs_free_slot >>= fun st => lookup st "/d/".toList) = Except.ok (Ptr.node 2) ∧
    (fs_free_slot >>= fun st => myfs2_mknod st "/d/f".toList).map Prod.snd = Except.ok 0 ∧
    (run_op fs_free_slot (fun st => myfs2_mknod st "/d/f".toList)
      >>= fun st => lookup st "/d/f".toList) = Except.ok Ptr.bad := by
  refine ⟨rfl, rfl, rfl, rfl⟩

/-- C9 (code_bug): in the state after `mknod /a; mkdir /d; unlink /a` the parent
`/d/` of the link path is inode 2, a directory with 2 records.
`symlink("/a/b.txt", "/d/link")` returns 0, yet `/d/link` does not resolve
afterwards and `readlink` fails with `-ENOENT`. -/
theorem symlink_in_freed_slot_not_resolved :
    (fs_free_slot >>= fun st => lookup st "/d/".toList) = Except.ok (Ptr.node 2) ∧
    (fs_free_slot >>= fun st => observe st 2).map (fun o => (o.1, o.2.1))
      = Except.ok (TYPE_DIR, 2) ∧
    (fs_free_slot >>= fun st => myfs2_symlink st "/a/b.txt".toList "/d/link".toList).map
      Prod.snd = Except.ok 0 ∧
    (run_op fs_free_slot (fun st => myfs2_symlink st "/a/b.txt".toList "/d/link".toList)
      >>= fun st => lookup st "/d/link".toList) = Except.ok Ptr.bad ∧
    (run_op fs_free_slot (fun st => myfs2_symlink st "/a/b.txt".toList "/d/link".toList)
      >>= fun st => myfs2_readlink st "/d/link".toList 4097) = Except.ok (-ENOENT, []) := by
  refine ⟨rfl, rfl, rfl, rfl, rfl⟩

/-! ## C8: removing a directory -/

/-- C8 (code_bug): in the state after `mknod /x; mknod /y; unlink /x; mkdir /e;
mkdir /d; mknod /d/c` the directory `/d` (cell 3, inode id 2) holds `.`, `..` and
`c`.  `rmdir /d` fails with `-ENOTEMPTY` and changes nothing; after `unlink /d/c`,
`rmdir /d` returns 0 and lowers the link count of the root from 4 to 3, but `/d`
still resolves: the record removed from the root is that of `/y`, which carries
the same inode id. -/
theorem rmdir_removes_other_record :
    (fs_shifted_ids >>= fun st => lookup st "/d".toList) = Except.ok (Ptr.node 3) ∧
    (fs_shifted_ids >>= fun st => lookup st "/d/c".toList) = Except.ok (Ptr.node 4) ∧
    (fs_shifted_ids >>= fun st => myfs2_rmdir st "/d".toList)
      = fs_shifted_ids.map (fun st => (st, -ENOTEMPTY)) ∧
    (run_op fs_shifted_ids (fun st => myfs2_unlink st "/d/c".toList)
      >>= fun st => myfs2_rmdir st "/d".toList).map Prod.snd = Except.ok 0 ∧
    (run_op fs_shifted_ids (fun st => myfs2_unlink st "/d/c".toList)
      >>= fun st => observe st 0).map (fun o => o.2.2.1) = Except.ok 4 ∧
    (run_op (run_op fs_shifted_ids (fun st => myfs2_unlink st "/d/c".toList))
      (fun st => myfs2_rmdir st "/d".toList)
      >>= fun st => observe st 0).map (fun o => o.2.2.1) = Except.ok 3 ∧
    (run_op (run_op fs_shifted_ids (fun st => myfs2_unlink st "/d/c".toList))
      (fun st => myfs2_rmdir st "/d".toList)
      >>= fun st => lookup st "/d".toList) = Except.ok (Ptr.node 3) ∧
    (run_op (run_op fs_shifted_ids (fun st => myfs2_unlink st "/d/c".toList))
      (fun st => myfs2_rmdir st "/d".toList)
      >>= fun st => lookup st "/y".toList) = Except.ok Ptr.bad := by
  refine ⟨rfl, rfl, rfl, rfl, rfl, rfl, rfl, rfl⟩

set_option maxRecDepth 100000

theorem except_map_ok {α β : Type} (f : α → β) (a : α) :
    (Except.ok a : Except Fault α).map f = Except.ok (f a) := rfl

/-! ## Paths that the buffers hold -/

/-- A path that `lookup` resolves is `/` or fits the 32 bytes of `pth`. -/
theorem lookup_fits (st : FS) (path : List Char) (p : Ptr)
    (h : lookup st path = Except.ok p) : path = ['/'] ∨ path.length < 32 := by
  unfold lookup at h
  by_cases h1 : path = ['/']
  · exact Or.inl h1
  · right
    rw [if_neg h1] at h
    by_contra hlong
    rw [if_pos (not_lt.mp hlong)] at h
    cases h

/-- A path that `split_path` splits has a parent and a leaf that fit the
`BLOCK_SIZE` bytes of `parent` and of `leaf`. -/
theorem split_path_fits (path pp leaf : List Char)
    (h : split_path path = Except.ok (pp, leaf)) : pp.length < 128 ∧ leaf.length < 128 := by
  unfold split_path at h
  simp only at h
  split at h
  · cases h
  · split at h
    · cases h
    · split at h
      · cases h
      · have h2 := Except.ok.inj h
        have h3 : _ = pp := congrArg Prod.fst h2
        have h4 : _ = leaf := congrArg Prod.snd h2
        rw [← h3, ← h4, List.length_reverse, List.length_reverse]
        simp only [BLOCK_SIZE] at *
        constructor <;> omega

/-! ## C1: write, then read -/

/-- C1 (confirmed): let `path` resolve to a regular inode `f` whose present blocks are
`char[BLOCK_SIZE]` buffers (a path that resolves fits the 32 bytes of `pth`, by
`lookup_fits`), and let `b` hold at most `32 * 128 = 4096` bytes.  Then
`myfs2_write(path, b, len(b), 0)` returns `len(b)`, and `myfs2_read(path, buf, len(b),
0)` in the state it leaves returns `len(b)` and copies exactly `b`. -/
theorem write_read_roundtrip (st : FS) (path : List Char) (p : Ptr) (f : Inode) (b : List Char)
    (hp : lookup st path = Except.ok p) (hf : deref st p = Except.ok f)
    (hreg : f.type = TYPE_REG) (hblk : RegBlocks f.blocks) (hb : b.length ≤ 4096) :
    (myfs2_write st path b 0).map Prod.snd = Except.ok (b.length : Int) ∧
    (myfs2_write st path b 0 >>= fun r => myfs2_read r.1 path b.length 0)
      = Except.ok ((b.length : Int), b) := by
  obtain ⟨blocks, hw, hrb, hrd⟩ := write_node_ok f b 0 hblk (u64_nonneg _) (by omega)
  simp only [Nat.cast_zero, zero_add] at hw
  have hne : f.type ≠ TYPE_DIR := by rw [hreg]; decide
  have hg1 : lookup (store st p { f with blocks := blocks, size := (b.length : Int) }) path
      = Except.ok p :=
    (lookup_store_not_dir st p f { f with blocks := blocks, size := (b.length : Int) }
      hf hne rfl rfl path).trans hp
  have hg2 : deref (store st p { f with blocks := blocks, size := (b.length : Int) }) p
      = Except.ok { f with blocks := blocks, size := (b.length : Int) } :=
    deref_store_same st p f { f with blocks := blocks, size := (b.length : Int) } hf
  rw [myfs2_write_reg st path p f b 0 hp hf hreg, hw]
  refine ⟨rfl, ?_⟩
  simp only [except_bind_ok, pure, Except.pure]
  rw [myfs2_read_reg _ path p _ _ _ hg1 hg2 hreg]
  exact read_node_all _ b hrb.1 rfl hb (hrd rfl)

/-- Witness of C1: `/a` in the state after `mknod /a`, with `b = "hello"`. -/
theorem write_read_roundtrip_witness :
    lookup fs_with_file "/a".toList = Except.ok (Ptr.node 1) ∧
    deref fs_with_file (Ptr.node 1) = Except.ok empty_file ∧
    (myfs2_write fs_with_file "/a".toList "hello".toList 0).map Prod.snd = Except.ok 5 ∧
    (myfs2_write fs_with_file "/a".toList "hello".toList 0
      >>= fun r => myfs2_read r.1 "/a".toList 5 0) = Except.ok (5, "hello".toList) :=
  ⟨rfl, rfl, write_read_roundtrip fs_with_file "/a".toList (Ptr.node 1) empty_file
    "hello".toList rfl rfl rfl (by decide) (by decide)⟩

/-! ## C5: the size after a write -/

/-- C5 (counterexample): writing 1 byte at offset 1 to the empty file `/a` returns 0
and leaves the state as it is (size 0, not `max(0, 2)`); writing 1 byte at offset 1
to `/a` of size 5 returns 1 and leaves size 2, not `max(5, 2)`. -/
theorem write_size_counterexample :
    myfs2_write fs_with_file "/a".toList ['x'] 1 = Except.ok (fs_with_file, 0) ∧
    (observe fs_with_file 1).map (fun o => o.2.1) = Except.ok 0 ∧
    (observe fs_hello 1).map (fun o => o.2.1) = Except.ok 5 ∧
    (myfs2_write fs_hello "/a".toList ['X'] 1).map Prod.snd = Except.ok 1 ∧
    (myfs2_write fs_hello "/a".toList ['X'] 1 >>= fun r => observe r.1 1).map (fun o => o.2.1)
      = Except.ok 2 ∧
    (0 : Int) ≠ max 0 (1 + 1) ∧ (2 : Int) ≠ max 5 (1 + 1) := by
  refine ⟨rfl, rfl, rfl, rfl, rfl, by decide, by decide⟩

theorem u64_of_size (x : Int) (h0 : 0 ≤ x) (h1 : x < 2147483648) : u64 x = x :=
  u64_of_range x h0 (by omega)

theorem nat_bound_of_cap (o n : Nat) (h : (o : Int) + (n : Int) ≤ 4096) : o + n ≤ 4096 := by
  omega

/-- C5 (amended): let `path` resolve to a regular inode `f` of size `s` (an `int`,
`0 <= s`) whose present blocks are `char[BLOCK_SIZE]` buffers (a path that resolves
fits the 32 bytes of `pth`, by `lookup_fits`), `0 <= offset` and
`offset + len(b) <= 4096`.  If `offset <= s` the write returns `len(b)`; if moreover
`s <= offset + len(b)` it leaves the size at `max(s, offset + len(b))`.  If
`offset > s` the write returns 0 and leaves the state unchanged. -/
theorem write_size_amended (st : FS) (path : List Char) (p : Ptr) (f : Inode) (b : List Char)
    (offset : Int) (hp : lookup st path = Except.ok p) (hf : deref st p = Except.ok f)
    (hreg : f.type = TYPE_REG) (hblk : RegBlocks f.blocks)
    (hs0 : 0 ≤ f.size) (hs1 : f.size < 2147483648)
    (h0 : 0 ≤ offset) (hcap : offset + b.length ≤ 4096) :
    (offset ≤ f.size → (myfs2_write st path b offset).map Prod.snd = Except.ok (b.length : Int)) ∧
    (offset ≤ f.size → f.size ≤ offset + b.length →
      (myfs2_write st path b offset >>= fun r => deref r.1 p).map Inode.size
        = Except.ok (max f.size (offset + b.length))) ∧
    (f.size < offset → myfs2_write st path b offset = Except.ok (st, 0)) := by
  obtain ⟨o, rfl⟩ := Int.eq_ofNat_of_zero_le h0
  have hu := u64_of_size f.size hs0 hs1
  have hcapn := nat_bound_of_cap o b.length hcap
  rw [myfs2_write_reg st path p f b _ hp hf hreg]
  refine ⟨?_, ?_, ?_⟩
  · intro hle
    obtain ⟨blocks, hw, _, _⟩ := write_node_ok f b o hblk (by rw [hu]; exact hle) hcapn
    rw [hw]
    rfl
  · intro hle hge
    obtain ⟨blocks, hw, _, _⟩ := write_node_ok f b o hblk (by rw [hu]; exact hle) hcapn
    rw [hw]
    simp only [except_bind_ok, pure, Except.pure]
    rw [deref_store_same st p f _ hf, max_eq_right hge]
    rfl
  · intro hlt
    rw [write_node_beyond f b _ hs0 hlt (by omega)]
    simp only [except_bind_ok, pure, Except.pure]
    rw [store_same st p f hf]

/-- Witness of C5 (amended): 3 bytes at offset 4 of `/a` of size 5, and of the empty
`/a`. -/
theorem write_size_amended_witness :
    lookup fs_hello "/a".toList = Except.ok (Ptr.node 1) ∧
    (observe fs_hello 1).map (fun o => o.2.1) = Except.ok 5 ∧
    (myfs2_write fs_hello "/a".toList "XYZ".toList 4).map Prod.snd = Except.ok 3 ∧
    (myfs2_write fs_hello "/a".toList "XYZ".toList 4 >>= fun r => deref r.1 (Ptr.node 1)).map
      Inode.size = Except.ok (max 5 (4 + 3)) ∧
    myfs2_write fs_with_file "/a".toList "XYZ".toList 4 = Except.ok (fs_with_file, 0) := by
  have h := write_size_amended fs_hello "/a".toList (Ptr.node 1)
    { type := TYPE_REG, size := 5, n_links := 1,
      blocks := some (Block.data ("hello".toList ++ List.replicate 123 (Char.ofNat 0)))
        :: List.replicate 31 none, next := none, prev := some 0 }
    "XYZ".toList 4 rfl rfl rfl (by decide) (by decide) (by decide) (by decide) (by decide)
  have h2 := write_size_amended fs_with_file "/a".toList (Ptr.node 1) empty_file
    "XYZ".toList 4 rfl rfl rfl (by decide) (by decide) (by decide) (by decide) (by decide)
  exact ⟨rfl, rfl, h.1 (by decide), h.2.1 (by decide) (by decide), h2.2.2 (by decide)⟩

/-! ## C10: the capacity boundary -/

/-- C10 (counterexample): writing 1 byte at offset 4096 to the full file `/a` (size
4096), or to the empty file `/a`, returns 0, which is a byte count and not an
error, and leaves the state as it is. -/
theorem write_past_capacity_counterexample :
    (observe fs_full_file 1).map (fun o => (o.1, o.2.1)) = Except.ok (TYPE_REG, 4096) ∧
    myfs2_write fs_full_file "/a".toList ['x'] 4096 = Except.ok (fs_full_file, 0) ∧
    myfs2_write fs_with_file "/a".toList ['x'] 4096 = Except.ok (fs_with_file, 0) ∧
    is_error 0 = false := by
  refine ⟨rfl, rfl, rfl, rfl⟩

/-- C10 (amended): let `path` resolve to a regular inode `f` of size `s` (an `int`,
`0 <= s`) whose present blocks are `char[BLOCK_SIZE]` buffers (a path that resolves
fits the 32 bytes of `pth`, by `lookup_fits`).  If `s >= 4095`,
writing 1 byte at offset 4095 returns 1.  If `s <= 4096`, writing 1 byte at
offset 4096 copies nothing, returns the byte count 0 (not an error) and leaves
the state unchanged. -/
theorem write_capacity_boundary (st : FS) (path : List Char) (p : Ptr) (f : Inode) (c : Char)
    (hp : lookup st path = Except.ok p) (hf : deref st p = Except.ok f)
    (hreg : f.type = TYPE_REG) (hblk : RegBlocks f.blocks)
    (hs0 : 0 ≤ f.size) (hs1 : f.size < 2147483648) :
    (4095 ≤ f.size → (myfs2_write st path [c] 4095).map Prod.snd = Except.ok 1) ∧
    (f.size ≤ 4096 → myfs2_write st path [c] 4096 = Except.ok (st, 0) ∧ is_error 0 = false) := by
  have hu := u64_of_size f.size hs0 hs1
  refine ⟨?_, ?_⟩
  · intro hge
    rw [myfs2_write_reg st path p f [c] _ hp hf hreg]
    obtain ⟨blocks, hw, _, _⟩ := write_node_ok f [c] 4095 hblk (by rw [hu]; exact hge)
      (Nat.le_refl 4096)
    have hw2 : write_node f [c] 4095 = _ := hw
    rw [hw2]
    rfl
  · intro hle
    refine ⟨?_, rfl⟩
    rw [myfs2_write_reg st path p f [c] _ hp hf hreg]
    rcases lt_or_eq_of_le hle with hlt | heq
    · rw [write_node_beyond f [c] 4096 hs0 hlt (by decide)]
      simp only [except_bind_ok, pure, Except.pure]
      rw [store_same st p f hf]
    · rw [write_node_at_capacity f [c] heq (by simp)]
      simp only [except_bind_ok, pure, Except.pure]
      rw [store_same st p f hf]

/-- Witness of C10 (amended): the full file `/a`. -/
theorem write_capacity_boundary_witness :
    lookup fs_full_file "/a".toList = Except.ok (Ptr.node 1) ∧
    (myfs2_write fs_full_file "/a".toList ['x'] 4095).map Prod.snd = Except.ok 1 ∧
    (myfs2_write fs_full_file "/a".toList ['x'] 4096 = Except.ok (fs_full_file, 0) ∧
      is_error 0 = false) := by
  have h := write_capacity_boundary fs_full_file "/a".toList (Ptr.node 1)
    { type := TYPE_REG, size := 4096, n_links := 1,
      blocks := List.replicate BLOCKS_PER_FILE (some (Block.data zero_data)),
      next := none, prev := some 0 }
    'x' rfl rfl rfl (by decide) (by decide) (by decide)
  exact ⟨rfl, h.1 (by decide), h.2 (by decide)⟩

/-! ## C12: `myfs2_mkdir` into a freed slot -/

/-- C12 (code_bug): in the state after `mknod /a; mkdir /d; unlink /a` the path
`/d/e` does not resolve and its parent `/d/` is inode 2, a directory with 2 records
and link count 2; the free slot is inode 1.  `mkdir /d/e` returns 0, but afterwards
`/d/e` does not resolve, the parent cell 2 still has 2 records and link count 2, and
the new directory (cell 1) has link count 3 and a `..` record that points to
itself. -/
theorem mkdir_in_freed_slot_not_resolved :
    (fs_free_slot >>= fun st => lookup st "/d/e".toList) = Except.ok Ptr.bad ∧
    (fs_free_slot >>= fun st => lookup st "/d/".toList) = Except.ok (Ptr.node 2) ∧
    (fs_free_slot >>= fun st => observe st 2).map (fun o => (o.1, o.2.1, o.2.2.1))
      = Except.ok (TYPE_DIR, 2, 2) ∧
    (fs_free_slot >>= fun st => myfs2_mkdir st "/d/e".toList).map Prod.snd = Except.ok 0 ∧
    (run_op fs_free_slot (fun st => myfs2_mkdir st "/d/e".toList)
      >>= fun st => lookup st "/d/e".toList) = Except.ok Ptr.bad ∧
    (run_op fs_free_slot (fun st => myfs2_mkdir st "/d/e".toList)
      >>= fun st => observe st 2).map (fun o => (o.1, o.2.1, o.2.2.1))
      = Except.ok (TYPE_DIR, 2, 2) ∧
    (run_op fs_free_slot (fun st => myfs2_mkdir st "/d/e".toList) >>= fun st => observe st 1)
      = Except.ok (TYPE_DIR, 2, 3, [some (Block.recs
          [{ inode_id := 1, name := ['.'] }, { inode_id := 1, name := ['.', '.'] },
           { inode_id := 0, name := [] }, { inode_id := 0, name := [] }])]) := by
  refine ⟨rfl, rfl, rfl, rfl, rfl, rfl, rfl⟩

/-! ## C13: unlinking the root -/

/-- C13 (code_bug): `unlink /` on the fresh filesystem returns 0 and leaves the root
a directory with link count 1; a second `unlink /` returns 0 and marks inode 0
free (`TYPE_NIL`, size 0, link count 0). -/
theorem unlink_root_twice_frees_root :
    (observe init_fs 0).map (fun o => (o.1, o.2.1, o.2.2.1)) = Except.ok (TYPE_DIR, 2, 2) ∧
    (myfs2_unlink init_fs "/".toList).map Prod.snd = Except.ok 0 ∧
    (fs_root_unlinked >>= fun st => observe st 0).map (fun o => (o.1, o.2.1, o.2.2.1))
      = Except.ok (TYPE_DIR, 1, 1) ∧
    (fs_root_unlinked >>= fun st => myfs2_unlink st "/".toList).map Prod.snd = Except.ok 0 ∧
    (run_op fs_root_unlinked (fun st => myfs2_unlink st "/".toList)
      >>= fun st => observe st 0).map (fun o => (o.1, o.2.1, o.2.2.1))
      = Except.ok (TYPE_NIL, 0, 0) ∧
    (run_op fs_root_unlinked (fun st => myfs2_unlink st "/".toList)
      >>= fun st => get_bad_inode st) = Except.ok (some 0) := by
  refine ⟨rfl, rfl, rfl, rfl, rfl, rfl⟩

/-! ## C14: the blocks of an unlinked file -/

/-- C14 (code_bug): after `mknod /a; write /a (129 bytes) 0; write /a (1 byte) 0`
the file `/a` (inode 1, link count 1) has size 1 and blocks 0 and 1.  After
`unlink /a` the path does not resolve and the inode is free with size 0, but only
block 0 was released: `blocks[1]` is still allocated. -/
theorem unlink_leaves_block_of_shrunk_file :
    (fs_shrunk_file >>= fun st => lookup st "/a".toList) = Except.ok (Ptr.node 1) ∧
    (fs_shrunk_file >>= fun st => observe st 1).map (fun o => (o.1, o.2.1, o.2.2.1))
      = Except.ok (TYPE_REG, 1, 1) ∧
    (fs_shrunk_file >>= fun st => blocks_present st 1)
      = Except.ok (true :: true :: List.replicate 30 false) ∧
    (run_op fs_shrunk_file (fun st => myfs2_unlink st "/a".toList)
      >>= fun st => lookup st "/a".toList) = Except.ok Ptr.bad ∧
    (run_op fs_shrunk_file (fun st => myfs2_unlink st "/a".toList)
      >>= fun st => observe st 1).map (fun o => (o.1, o.2.1, o.2.2.1))
      = Except.ok (TYPE_NIL, 0, 0) ∧
    (run_op fs_shrunk_file (fun st => myfs2_unlink st "/a".toList)
      >>= fun st => blocks_present st 1)
      = Except.ok (false :: true :: List.replicate 30 false) := by
  refine ⟨rfl, rfl, rfl, rfl, rfl, rfl⟩

/-! ## C16: the scenario of the specification -/

/-- C16 (confirmed): from `init_fs`, after `mkdir /a` and `mknod /a/b.txt`,
`write("/a/b.txt", "hello", 5, 0)` returns 5; afterwards `read("/a/b.txt", 5, 0)`
returns 5 and the bytes `hello`, and `readdir("/a")` returns 0 and passes exactly
the names `.`, `..` and `b.txt` to `filler`, in that order. -/
theorem scenario_hello :
    (fs_dir_file >>= fun st => myfs2_write st "/a/b.txt".toList "hello".toList 0).map Prod.snd
      = Except.ok 5 ∧
    (run_op fs_dir_file (fun st => myfs2_write st "/a/b.txt".toList "hello".toList 0)
      >>= fun st => myfs2_read st "/a/b.txt".toList 5 0) = Except.ok (5, "hello".toList) ∧
    (run_op fs_dir_file (fun st => myfs2_write st "/a/b.txt".toList "hello".toList 0)
      >>= fun st => myfs2_readdir st "/a".toList)
      = Except.ok (0, [".".toList, "..".toList, "b.txt".toList]) := by
  refine ⟨rfl, rfl, rfl⟩

/-! ## C17: the inode chain after a create into a freed slot -/

/-- C17 (code_bug): in the state after `mknod /a; mkdir /d; unlink /a` the chain is
`0 -> 1 -> 2 -> NULL`.  After `mknod /c`, which takes the freed slot 1, cell 1 is
its own successor: the chain from the root is `0 -> 1 -> 1 -> ...`, and neither
the scan of `get_bad_inode()` nor the walk of `get_inode(-1)` comes to an end. -/
theorem chain_cycle_after_reuse :
    (fs_free_slot.map fun st => st.heap.map Inode.next)
      = Except.ok [some 1, some 2, none] ∧
    (fs_free_slot >>= fun st => get_inode st (-1)) = Except.ok 2 ∧
    (fs_free_slot >>= fun st => myfs2_mknod st "/c".toList).map Prod.snd = Except.ok 0 ∧
    ((run_op fs_free_slot (fun st => myfs2_mknod st "/c".toList)).map
      fun st => st.heap.map Inode.next) = Except.ok [some 1, some 1, none] ∧
    (run_op fs_free_slot (fun st => myfs2_mknod st "/c".toList) >>= fun st => get_bad_inode st)
      = Except.error Fault.diverges ∧
    (run_op fs_free_slot (fun st => myfs2_mknod st "/c".toList) >>= fun st => get_inode st (-1))
      = Except.error Fault.diverges := by
  refine ⟨rfl, rfl, rfl, rfl, rfl, rfl⟩

/-! ## C19: the placeholders -/

/-- C19 (confirmed): for every state, path, offset and pair of timestamps,
`myfs2_truncate` and `myfs2_utimens` return 0 and leave the whole state as it is. -/
theorem truncate_utimens_noop (st : FS) (path : List Char) (n : Int) (ts : Int × Int) :
    myfs2_truncate st path n = Except.ok (st, 0) ∧
    myfs2_utimens st path ts = Except.ok (st, 0) :=
  ⟨rfl, rfl⟩

/-! ## C11: `myfs2_read` -/

theorem blocks_needed_succ (s : Nat) (h : 0 < s) :
    (s + 127) / 128 = (s - min s 128 + 127) / 128 + 1 := by
  omega

theorem div_mod_shift (i : Nat) (h : 128 ≤ i) :
    i / 128 = (i - 128) / 128 + 1 ∧ i % 128 = (i - 128) % 128 := by
  omega

theorem div_mod_small (i : Nat) (h : i < 128) : i / 128 = 0 ∧ i % 128 = i := by
  omega

theorem min_cast_lt (s : Nat) : (if (s : Int) < ((128 : Nat) : Int) then (s : Int) else ((128 : Nat) : Int))
    = ((min s 128 : Nat) : Int) := by
  split <;> omega

theorem sub_min_cast (s : Nat) : (s : Int) - ((min s 128 : Nat) : Int) = ((s - min s 128 : Nat) : Int) := by
  omega

theorem read_loop_spec (bs : List (Option Block)) :
    ∀ (s room : Nat), s ≤ room → present_first ((s + 127) / 128) bs = true →
      ∃ data, read_loop bs s room = Except.ok data ∧ data.length = s ∧
        ∀ i, i < s → data[i]? = file_byte bs i := by
  induction bs with
  | nil =>
    intro s room _ h
    cases s with
    | zero => exact ⟨[], rfl, rfl, fun i hi => absurd hi (Nat.not_lt_zero i)⟩
    | succ s =>
      rw [blocks_needed_succ (s + 1) (Nat.succ_pos s)] at h
      simp [present_first] at h
  | cons b bs ih =>
    intro s room hroom h
    cases s with
    | zero =>
      refine ⟨[], ?_, rfl, fun i hi => absurd hi (Nat.not_lt_zero i)⟩
      exact read_loop_zero _ _
    | succ s =>
      rw [blocks_needed_succ (s + 1) (Nat.succ_pos s)] at h
      cases b with
      | none => simp [present_first] at h
      | some blk =>
        cases blk with
        | recs r => simp [present_first] at h
        | data d =>
          simp only [present_first, Bool.and_eq_true, beq_iff_eq, BLOCK_SIZE] at h
          obtain ⟨hd, hrest⟩ := h
          obtain ⟨rest, hr, hrl, hrb⟩ := ih _ (room - min (s + 1) 128)
            (Nat.sub_le_sub_right hroom _) hrest
          have hpos : ((s + 1 : Nat) : Int) > 0 := by omega
          have hm : min (s + 1) 128 ≤ d.length := by rw [hd]; exact Nat.min_le_right _ _
          refine ⟨d.take (min (s + 1) 128) ++ rest, ?_, ?_, ?_⟩
          · unfold read_loop
            simp only [hpos, if_true, BLOCK_SIZE, min_cast_lt, data_of, except_bind_ok,
              Int.toNat_ofNat, sub_min_cast, hr, pure_bind]
            have hnl : ¬ d.length < min (s + 1) 128 := not_lt.mpr hm
            have hnr : ¬ room < min (s + 1) 128 :=
              not_lt.mpr (le_trans (Nat.min_le_left _ _) hroom)
            rw [if_neg hnl, if_neg hnr]
            rfl
          · rw [List.length_append, List.length_take, hrl, Nat.min_eq_left hm]
            exact Nat.add_sub_cancel' (Nat.min_le_left _ _)
          · intro i hi
            by_cases hlt : i < min (s + 1) 128
            · have hi128 : i < 128 := lt_of_lt_of_le hlt (Nat.min_le_right _ _)
              rw [List.getElem?_append_left (by rw [List.length_take, Nat.min_eq_left hm]; exact hlt),
                List.getElem?_take_of_lt hlt]
              unfold file_byte
              simp only [BLOCK_SIZE, (div_mod_small i hi128).1, (div_mod_small i hi128).2,
                List.getElem?_cons_zero]
            · have hge : min (s + 1) 128 ≤ i := not_lt.mp hlt
              have h128 : min (s + 1) 128 = 128 := by omega
              rw [List.getElem?_append_right (by rw [List.length_take, Nat.min_eq_left hm]; exact hge),
                List.length_take, Nat.min_eq_left hm, h128]
              rw [hrb (i - 128) (by omega)]
              unfold file_byte
              have h2 := div_mod_shift i (by omega)
              simp only [BLOCK_SIZE, h2.1, h2.2, List.getElem?_cons_succ]

theorem room_after_block (s room : Nat) (h : room < s) (hr : ¬ room < min s 128) :
    room - min s 128 < s - min s 128 := by
  omega

/-- The loop of `myfs2_read` on a file of `s` bytes with a `data` of fewer bytes:
one of its copies writes past the end of `data`. -/
theorem read_loop_short (bs : List (Option Block)) :
    ∀ (s room : Nat), room < s → present_first ((s + 127) / 128) bs = true →
      read_loop bs s room = Except.error Fault.overrun := by
  induction bs with
  | nil =>
    intro s room hroom h
    have hs : 0 < s := Nat.lt_of_le_of_lt (Nat.zero_le _) hroom
    rw [blocks_needed_succ s hs] at h
    simp [present_first] at h
  | cons b bs ih =>
    intro s room hroom h
    have hs : 0 < s := Nat.lt_of_le_of_lt (Nat.zero_le _) hroom
    rw [blocks_needed_succ s hs] at h
    cases b with
    | none => simp [present_first] at h
    | some blk =>
      cases blk with
      | recs r => simp [present_first] at h
      | data d =>
        simp only [present_first, Bool.and_eq_true, beq_iff_eq, BLOCK_SIZE] at h
        obtain ⟨hd, hrest⟩ := h
        have hpos : ((s : Nat) : Int) > 0 := by omega
        have hm : min s 128 ≤ d.length := by rw [hd]; exact Nat.min_le_right _ _
        have hnl : ¬ d.length < min s 128 := not_lt.mpr hm
        unfold read_loop
        simp only [hpos, if_true, BLOCK_SIZE, min_cast_lt, data_of, except_bind_ok,
          Int.toNat_ofNat, sub_min_cast, pure_bind]
        rw [if_neg hnl]
        by_cases hr : room < min s 128
        · rw [if_pos hr]
          rfl
        · rw [if_neg hr, ih _ _ (room_after_block s room hroom hr) hrest]
          rfl

theorem file_byte_take (blocks : List (Option Block)) (i : Nat) (h : i < 4096) :
    file_byte (blocks.take 32) i = file_byte blocks i := by
  unfold file_byte
  have hj : i / 128 < 32 := by omega
  simp only [BLOCK_SIZE]
  rw [List.getElem?_take_of_lt hj]

theorem read_count_cases (s o n : Nat) (ho : o < s) (hs : s ≤ 4096)
    (hn : n < 9223372036854775808) :
    (if u64 ((o : Int) + (n : Int)) > (s : Int) then u64 ((s : Int) - (o : Int)) else (n : Int))
      = ((min n (s - o) : Nat) : Int) := by
  have h1 : u64 ((o : Int) + (n : Int)) = (o : Int) + n := u64_of_range _ (by omega) (by omega)
  have h2 : u64 ((s : Int) - (o : Int)) = (s : Int) - o := u64_of_range _ (by omega) (by omega)
  rw [h1, h2]
  split <;> omega

theorem i32_min (s o n : Nat) (hs : s ≤ 4096) : i32 ((min n (s - o) : Nat) : Int) = ((min n (s - o) : Nat) : Int) :=
  i32_of_range _ (by omega) (by omega)

theorem u64_nat (o : Nat) (h : o < 9223372036854775808) : u64 (o : Int) = o :=
  u64_of_range _ (by omega) (by omega)

theorem min_sub_le (s o n : Nat) (ho : o < s) : min n (s - o) ≤ s - o ∧ o + min n (s - o) ≤ s := by
  omega

theorem count_fits (s o n : Nat) (ho : o < s) (hsn : s ≤ n) :
    ¬ ((n : Int) < (o : Int) + ((min n (s - o) : Nat) : Int)) := by
  omega

theorem padded_length (s o n : Nat) (ho : o < s) (hsn : s ≤ n) :
    min (min n (s - o)) (s + (n - s) - o) = min n (s - o) := by
  omega

/-- `read_node` on a regular file whose blocks up to its size are present, with a
`data` that is smaller than the file. -/
theorem read_node_short (node : Inode) (s n : Nat) (o : Int) (hsz : node.size = (s : Int))
    (hs : s ≤ 4096) (hpres : present_first ((s + 127) / 128) (node.blocks.take 32) = true)
    (hn : n < s) : read_node node n o = Except.error Fault.overrun := by
  have hu1 : u64 node.size = (s : Int) := by rw [hsz]; exact u64_small s hs
  have hi1 : i32 (s : Int) = s := i32_small s hs
  unfold read_node
  simp only [hu1, hi1, BLOCKS_PER_FILE, read_loop_short (node.blocks.take 32) s n hn hpres]
  rfl

/-- `read_node` on a regular file whose blocks up to its size are present, with a
`data` that holds the file. -/
theorem read_node_spec (node : Inode) (s o n : Nat) (hsz : node.size = (s : Int))
    (hs : s ≤ 4096) (hpres : present_first ((s + 127) / 128) (node.blocks.take 32) = true)
    (ho : o < 9223372036854775808) (hn : n < 9223372036854775808) (hsn : s ≤ n) :
    (s ≤ o → read_node node n o = Except.ok (0, [])) ∧
    (o < s → ∃ bytes, read_node node n o = Except.ok (((min n (s - o) : Nat) : Int), bytes) ∧
      bytes.length = min n (s - o) ∧
      ∀ k, k < min n (s - o) → bytes[k]? = file_byte node.blocks (o + k)) := by
  obtain ⟨data, hr, hl, hb⟩ := read_loop_spec (node.blocks.take 32) s n hsn hpres
  have hu1 : u64 node.size = (s : Int) := by rw [hsz]; exact u64_small s hs
  have hi1 : i32 (s : Int) = s := i32_small s hs
  have hu2 := u64_nat o ho
  refine ⟨?_, ?_⟩
  · intro hle
    unfold read_node
    simp only [hu1, hi1, BLOCKS_PER_FILE, hr, except_bind_ok, hu2]
    have hnlt : ¬ (o : Int) < (s : Int) := by omega
    rw [if_neg hnlt]
    rfl
  · intro hlt
    have hlt2 : (o : Int) < (s : Int) := by omega
    have hm := min_sub_le s o n hlt
    refine ⟨((data ++ List.replicate (n - data.length) (Char.ofNat 0)).drop o).take
      (min n (s - o)), ?_, ?_, ?_⟩
    · unfold read_node
      simp only [hu1, hi1, BLOCKS_PER_FILE, hr, except_bind_ok, hu2, if_pos hlt2,
        read_count_cases s o n hlt hs hn, i32_min s o n hs, Int.toNat_ofNat]
      rw [if_neg (count_fits s o n hlt hsn)]
      rfl
    · rw [List.length_take, List.length_drop, List.length_append, List.length_replicate, hl]
      exact padded_length s o n hlt hsn
    · intro k hk
      rw [List.getElem?_take_of_lt hk, List.getElem?_drop,
        List.getElem?_append_left (by rw [hl]; omega), hb (o + k) (by omega)]
      exact file_byte_take _ _ (by omega)

/-- C11 (code_bug): let `path` resolve to a regular inode `f` of size `s <= 4096`
whose first `ceil(s / 128)` blocks are present `char[BLOCK_SIZE]` buffers (a path
that resolves fits the 32 bytes of `pth`, by `lookup_fits`); let
`o >= 0` be an offset (an `off_t`) and `n` a length.  `myfs2_read` copies the whole
file, `s` bytes, to `data = calloc(1, n)` before it looks at `o`.  If `n < s`, for
every offset, that copy writes past the end of `data`: the call has no defined
result, where the specification has it return `min(n, s - o)` bytes (or none when
`o >= s`).  If `s <= n` the call does what the specification says: for `o >= s` it
returns 0 and copies no byte, and otherwise it returns `min(n, s - o)` and copies
exactly that many bytes, the `k`-th of which is byte `(o + k) % 128` of block
`(o + k) / 128`; it assigns to nothing in the state. -/
theorem read_overruns_data (st : FS) (path : List Char) (p : Ptr) (f : Inode) (s o n : Nat)
    (hp : lookup st path = Except.ok p) (hf : deref st p = Except.ok f)
    (hreg : f.type = TYPE_REG) (hsz : f.size = (s : Int)) (hs : s ≤ 4096)
    (hpres : present_first ((s + 127) / 128) (f.blocks.take 32) = true)
    (ho : o < 9223372036854775808) (hn : n < 9223372036854775808) :
    (n < s → myfs2_read st path n o = Except.error Fault.overrun) ∧
    (s ≤ n →
      (s ≤ o → myfs2_read st path n o = Except.ok (0, [])) ∧
      (o < s → ∃ bytes,
        myfs2_read st path n o = Except.ok (((min n (s - o) : Nat) : Int), bytes) ∧
        bytes.length = min n (s - o) ∧
        ∀ k, k < min n (s - o) → bytes[k]? = file_byte f.blocks (o + k))) := by
  rw [myfs2_read_reg st path p f n o hp hf hreg]
  exact ⟨fun hlt => read_node_short f s n o hsz hs hpres hlt,
    fun hsn => read_node_spec f s o n hsz hs hpres ho hn hsn⟩

/-- Witness of C11: `/a` of size 5 in `fs_hello`, read with length 3 at offset 0. -/
theorem read_overruns_data_witness :
    lookup fs_hello "/a".toList = Except.ok (Ptr.node 1) ∧
    deref fs_hello (Ptr.node 1) = Except.ok hello_file ∧
    hello_file.size = 5 ∧
    myfs2_read fs_hello "/a".toList 3 (0 : Nat) = Except.error Fault.overrun :=
  ⟨rfl, rfl, rfl,
   (read_overruns_data fs_hello "/a".toList (Ptr.node 1) hello_file 5 0 3 rfl rfl rfl rfl
      (by decide) (by decide) (by decide) (by decide)).1 (by decide)⟩

/-! ## C15: the size bound under `myfs2_write` -/

theorem room_step (L off n r : Nat) (hoff : off < 128) (hge : 128 - off ≤ L)
    (hr : r ≤ L - (128 - off))
    (h : r = L - (128 - off) ∨ 0 + (L - (128 - off) - r) ≤ 128 * n) :
    r ≤ L ∧ (r = L ∨ off + (L - r) ≤ 128 * (n + 1)) := by
  omega

/-- `write_loop` on well-formed blocks: what is not copied is returned, and what is
copied fits into the blocks. -/
theorem write_loop_bound (bs : List (Option Block)) :
    ∀ (off : Nat) (data : List Char), bs.all data_block_ok = true → off < 128 →
      ∃ (bs2 : List (Option Block)) (r : Nat),
        write_loop bs off data.length data = Except.ok (bs2, (r : Int)) ∧
        bs2.length = bs.length ∧ bs2.all data_block_ok = true ∧ r ≤ data.length ∧
        (r = data.length ∨ off + (data.length - r) ≤ 128 * bs.length) := by
  induction bs with
  | nil =>
    intro off data _ _
    exact ⟨[], data.length, rfl, rfl, rfl, le_refl _, Or.inl rfl⟩
  | cons b bs ih =>
    intro off data hall hoff
    simp only [List.all_cons, Bool.and_eq_true] at hall
    obtain ⟨hb, hbs⟩ := hall
    have hbl := block_bytes_length b hb
    unfold write_loop
    by_cases hd : (data.length : Int) > 0
    · simp only [hd, if_true, block_or_calloc_ok b hb, BLOCK_SIZE, except_bind_ok]
      by_cases hfit : (data.length : Int) < ((128 : Nat) : Int) - (off : Int)
      · simp only [hfit, if_true, Int.toNat_ofNat, List.take_length, sub_self, gt_iff_lt,
          lt_self_iff_false, if_false]
        rw [memcpy_at_ok _ _ _ (by omega)]
        simp only [except_bind_ok]
        refine ⟨_, 0, rfl, by simp, ?_, Nat.zero_le _, Or.inr ?_⟩
        · simp only [List.all_cons, hbs, Bool.and_true, data_block_ok, BLOCK_SIZE]
          simp; omega
        · simp only [List.length_cons]; omega
      · simp only [hfit, if_false]
        have hn : ((128 : Nat) : Int) - (off : Int) = ((128 - off : Nat) : Int) := by omega
        have hge : 128 - off ≤ data.length := by omega
        have htk : (List.take (128 - off) data).length = 128 - off := by
          rw [List.length_take]; omega
        rw [hn, Int.toNat_ofNat, memcpy_at_ok _ _ _ (by rw [htk, hbl]; omega)]
        simp only [except_bind_ok]
        have hdl : (List.drop (128 - off) data).length = data.length - (128 - off) :=
          List.length_drop _ _
        have hcast : (data.length : Int) - ((128 - off : Nat) : Int)
            = ((List.drop (128 - off) data).length : Int) := by
          rw [hdl]; omega
        rw [hcast]
        by_cases hmore : ((List.drop (128 - off) data).length : Int) > 0
        · simp only [hmore, if_true]
          obtain ⟨bs1, r1, hw, hl1, hok1, hr1, hroom1⟩ :=
            ih 0 (List.drop (128 - off) data) hbs (by decide)
          simp only [Nat.cast_zero] at hw
          rw [hw]
          simp only [except_bind_ok]
          rw [hdl] at hr1 hroom1
          have hfin := room_step data.length off bs.length r1 hoff hge hr1 hroom1
          refine ⟨_, r1, rfl, by simp [hl1], ?_, hfin.1, ?_⟩
          · simp only [List.all_cons, hok1, Bool.and_true, data_block_ok, BLOCK_SIZE]
            simp [htk, hbl]; omega
          · simpa using hfin.2
        · simp only [hmore, if_false]
          have hz : ((List.drop (128 - off) data).length : Int) = 0 := by omega
          rw [hz]
          refine ⟨_, 0, rfl, by simp, ?_, Nat.zero_le _, Or.inr ?_⟩
          · simp only [List.all_cons, hbs, Bool.and_true, data_block_ok, BLOCK_SIZE]
            simp [htk, hbl]; omega
          · simp only [List.length_cons]; omega
    · have h0 : data.length = 0 := by omega
      refine ⟨b :: bs, 0, ?_, rfl, ?_, Nat.zero_le _, Or.inl h0.symm⟩
      · simp [hd, h0]; rfl
      · simp [hb, hbs]

theorem size_after_write (o len r : Nat) (ho : o ≤ 4096) (hr : r ≤ len)
    (h : r = len ∨ o % 128 + (len - r) ≤ 128 * (32 - o / 128)) : o + (len - r) ≤ 4096 := by
  omega

theorem i32_len (len : Nat) (h : len < 2147483648) : i32 (len : Int) = len :=
  i32_of_range _ (by omega) (by omega)

theorem u64_written (len r : Nat) (hr : r ≤ len) (h : len < 2147483648) :
    u64 ((len : Int) - (r : Int)) = ((len - r : Nat) : Int) := by
  rw [u64_of_range _ (by omega) (by omega)]
  omega

theorem i32_written (len r : Nat) (h : len < 2147483648) :
    i32 ((len - r : Nat) : Int) = ((len - r : Nat) : Int) :=
  i32_of_range _ (by omega) (by omega)

theorem i32_new_size (o w : Nat) (h : o + w ≤ 4096) :
    i32 ((o : Int) + ((w : Nat) : Int)) = ((o + w : Nat) : Int) := by
  rw [i32_of_range _ (by omega) (by omega)]
  omega

/-- `write_node` at an offset inside a regular file of at most 4096 bytes. -/
theorem write_node_bound (node : Inode) (buf : List Char) (s o : Nat)
    (hblk : RegBlocks node.blocks) (hsz : node.size = (s : Int)) (hs : s ≤ 4096)
    (hos : o ≤ s) (hb : buf.length < 2147483648) :
    ∃ (blocks : List (Option Block)) (w : Nat), write_node node buf o
        = Except.ok ({ node with blocks := blocks, size := ((o + w : Nat) : Int) }, (w : Int)) ∧
      RegBlocks blocks ∧ w ≤ buf.length ∧ o + w ≤ 4096 := by
  obtain ⟨hlen, hall⟩ := hblk
  simp only [BLOCKS_PER_FILE] at hlen
  have ho : o ≤ 4096 := le_trans hos hs
  have hq : o / 128 ≤ 32 := div_128_le o ho
  have hneg : ¬ ((0 : Int) < (buf.length : Int) ∧ ((o / 128 : Nat) : Int) < 0) :=
    fun h => absurd h.2 (not_lt.mpr (Int.ofNat_nonneg _))
  have hu1 : u64 (o : Int) = o := u64_small o ho
  have hu2 : u64 node.size = (s : Int) := by rw [hsz]; exact u64_small s hs
  have hle : (o : Int) ≤ (s : Int) := Int.ofNat_le.mpr hos
  have hi1 := i32_len buf.length hb
  have hi2 : i32 ((o / 128 : Nat) : Int) = ((o / 128 : Nat) : Int) :=
    i32_small _ (le_trans hq (by decide))
  have hi3 : i32 ((o % 128 : Nat) : Int) = ((o % 128 : Nat) : Int) :=
    i32_small _ (mod_128_le o)
  have hdiv : Int.tdiv (o : Int) ((128 : Nat) : Int) = ((o / 128 : Nat) : Int) :=
    (Int.ofNat_tdiv o 128).symm
  have hmod : Int.tmod (o : Int) ((128 : Nat) : Int) = ((o % 128 : Nat) : Int) :=
    (Int.ofNat_tmod o 128).symm
  have htake : List.take 32 node.blocks = node.blocks :=
    List.take_of_length_le (le_of_eq hlen)
  have hdrop : List.drop 32 node.blocks = [] := List.drop_of_length_le (le_of_eq hlen)
  have halld : (List.drop (o / 128) node.blocks).all data_block_ok = true := by
    rw [List.all_eq_true] at hall ⊢
    intro x hx
    exact hall x (List.mem_of_mem_drop hx)
  obtain ⟨bs1, r, hw, hl1, hok1, hr, hroom⟩ := write_loop_bound (List.drop (o / 128) node.blocks)
    (o % 128) buf halld (Nat.mod_lt _ (by decide))
  rw [List.length_drop, hlen] at hroom
  have hfin := size_after_write o buf.length r ho hr hroom
  refine ⟨List.take (o / 128) node.blocks ++ bs1, buf.length - r, ?_, ⟨?_, ?_⟩,
    Nat.sub_le _ _, hfin⟩
  · unfold write_node
    simp only [hu1, hu2, hle, if_true, BLOCK_SIZE, BLOCKS_PER_FILE, hdiv, hmod, hi1, hi2, hi3,
      htake, hdrop, Int.toNat_ofNat, List.append_nil]
    rw [if_neg hneg, hw]
    simp only [except_bind_ok, u64_written buf.length r hr hb, i32_written buf.length r hb,
      i32_new_size o (buf.length - r) hfin]
    rfl
  · simp only [List.length_append, List.length_take, hl1, List.length_drop, BLOCKS_PER_FILE,
      hlen]
    exact take_add_length _ hq
  · rw [List.all_append, hok1, Bool.and_true, List.all_eq_true]
    rw [List.all_eq_true] at hall
    intro x hx
    exact hall x (List.mem_of_mem_take hx)

/-- C15 (confirmed): let `path` resolve to a regular inode `f` of size `s <= 4096`
whose present blocks are `char[BLOCK_SIZE]` buffers (a path that resolves fits the
32 bytes of `pth`, by `lookup_fits`); let `o >= 0` be an offset (an
`off_t`) and `b` a byte string (its length an `int`).  Then `myfs2_write` returns a
count `rc` with `0 <= rc <= len(b)` and assigns to `*node` an inode whose size is
still between 0 and 4096 and whose block array still has `BLOCKS_PER_FILE` entries,
each `NULL` or a `char[BLOCK_SIZE]`: no block of index 32 or more is written. -/
theorem write_keeps_size_bound (st : FS) (path : List Char) (p : Ptr) (f : Inode)
    (b : List Char) (s o : Nat)
    (hp : lookup st path = Except.ok p) (hf : deref st p = Except.ok f)
    (hreg : f.type = TYPE_REG) (hblk : RegBlocks f.blocks)
    (hsz : f.size = (s : Int)) (hs : s ≤ 4096)
    (ho : o < 9223372036854775808) (hb : b.length < 2147483648) :
    ∃ (f2 : Inode) (rc : Int), myfs2_write st path b o = Except.ok (store st p f2, rc) ∧
      0 ≤ f2.size ∧ f2.size ≤ 4096 ∧ 0 ≤ rc ∧ rc ≤ (b.length : Int) ∧
      f2.blocks.length = BLOCKS_PER_FILE ∧ RegBlocks f2.blocks ∧ f2.type = TYPE_REG := by
  rw [myfs2_write_reg st path p f b _ hp hf hreg]
  by_cases hos : o ≤ s
  · obtain ⟨blocks, w, hw, hrb, hwl, hcap⟩ := write_node_bound f b s o hblk hsz hs hos hb
    rw [hw]
    refine ⟨_, _, rfl, ?_, ?_, ?_, ?_, hrb.1, hrb, hreg⟩
    · exact Int.ofNat_nonneg _
    · exact Int.ofNat_le.mpr hcap
    · exact Int.ofNat_nonneg _
    · exact Int.ofNat_le.mpr hwl
  · have hlt : f.size < (o : Int) := by rw [hsz]; omega
    rw [write_node_beyond f b _ (by rw [hsz]; exact Int.ofNat_nonneg _) hlt (by omega)]
    refine ⟨f, 0, rfl, ?_, ?_, le_refl _, Int.ofNat_nonneg _, hblk.1, hblk, hreg⟩
    · rw [hsz]; exact Int.ofNat_nonneg _
    · rw [hsz]; exact Int.ofNat_le.mpr hs

/-- Witness of C15: 5 bytes at offset 4094 of the full file `/a`. -/
theorem write_keeps_size_bound_witness :
    lookup fs_full_file "/a".toList = Except.ok (Ptr.node 1) ∧
    ∃ (f2 : Inode) (rc : Int),
      myfs2_write fs_full_file "/a".toList "hello".toList (4094 : Nat)
        = Except.ok (store fs_full_file (Ptr.node 1) f2, rc) ∧
      0 ≤ f2.size ∧ f2.size ≤ 4096 ∧ 0 ≤ rc ∧ rc ≤ (("hello".toList).length : Int) ∧
      f2.blocks.length = BLOCKS_PER_FILE ∧ RegBlocks f2.blocks ∧ f2.type = TYPE_REG :=
  ⟨rfl, write_keeps_size_bound fs_full_file "/a".toList (Ptr.node 1)
    { type := TYPE_REG, size := 4096, n_links := 1,
      blocks := List.replicate BLOCKS_PER_FILE (some (Block.data zero_data)),
      next := none, prev := some 0 }
    "hello".toList 4096 4094 rfl rfl rfl (by decide) rfl (by decide) (by decide) (by decide)⟩

/-! ## C18: swap-compact removal -/

theorem recs_first_get (k : Nat) : ∀ (bs : List (Option Block)) (j : Nat),
    recs_first k bs = true → j < k →
    ∃ rs, bs[j]? = some (some (Block.recs rs)) ∧ rs.length = 4 := by
  induction k with
  | zero => intro bs j _ hj; exact absurd hj (Nat.not_lt_zero j)
  | succ k ih =>
    intro bs j h hj
    cases bs with
    | nil => simp [recs_first] at h
    | cons b bs =>
      cases b with
      | none => simp [recs_first] at h
      | some blk =>
        cases blk with
        | data d => simp [recs_first] at h
        | recs rs =>
          simp only [recs_first, Bool.and_eq_true, beq_iff_eq] at h
          cases j with
          | zero => exact ⟨rs, List.getElem?_cons_zero, h.1⟩
          | succ j =>
            simp only [List.getElem?_cons_succ]
            exact ih bs j h.2 (Nat.lt_of_succ_lt_succ hj)

theorem slot_block_lt (i n : Nat) (h : i < n) : i / 4 < (n + 3) / 4 := by
  omega

theorem slot_pos_lt (i : Nat) : i % 4 < 4 := by
  omega

theorem dir_rec_some (blocks : List (Option Block)) (n i : Nat) (h : DirBlocks blocks n)
    (hi : i < n) : ∃ r, dir_rec blocks i = some r := by
  obtain ⟨rs, hrs, hl⟩ := recs_first_get _ blocks (i / 4) h.2.2 (slot_block_lt i n hi)
  unfold dir_rec
  rw [hrs]
  have hlt : i % 4 < rs.length := by rw [hl]; exact slot_pos_lt i
  exact ⟨rs[i % 4], List.getElem?_eq_getElem hlt⟩

theorem slot_bounds (i : Nat) (h : i < 128) :
    (0 : Int) ≤ ((i / 4 : Nat) : Int) ∧ ((i / 4 : Nat) : Int) < ((32 : Nat) : Int) ∧
    (0 : Int) ≤ ((i % 4 : Nat) : Int) := by
  omega

theorem get_rec_of_dir_rec (blocks : List (Option Block)) (i : Nat) (r : DirRecord)
    (h : dir_rec blocks i = some r) (hi : i < 128) :
    get_rec blocks ((i / 4 : Nat) : Int) ((i % 4 : Nat) : Int) = Except.ok r := by
  unfold dir_rec at h
  have hb := slot_bounds i hi
  unfold get_rec get_block
  simp only [BLOCKS_PER_FILE, hb.1, hb.2.1, and_self, if_true, Int.toNat_ofNat]
  cases hblk : blocks[i / 4]? with
  | none => rw [hblk] at h; cases h
  | some b =>
    rw [hblk] at h
    cases b with
    | none => cases h
    | some blk =>
      cases blk with
      | data d => cases h
      | recs rs =>
        simp only at h
        simp only [except_bind_ok, pure_bind, recs_of, hb.2.2, if_true, h]
        rfl

theorem next_slot_wrap (j : Nat) (h : j % 4 + 1 = 4) : (j + 1) / 4 = j / 4 + 1 ∧ (j + 1) % 4 = 0 := by
  omega

theorem next_slot_same (j : Nat) (h : ¬ j % 4 + 1 = 4) :
    (j + 1) / 4 = j / 4 ∧ (j + 1) % 4 = j % 4 + 1 := by
  omega

theorem pos_wrap_iff (j : Nat) : (((j % 4 : Nat) : Int) + 1 = 4) ↔ (j % 4 + 1 = 4) := by
  omega

/-- The scan of `myfs2_unlink` stops at the first record that carries `id`. -/
theorem unlink_find_spec (blocks : List (Option Block)) (id : Int) (k : Nat) (rk : DirRecord)
    (hk : dir_rec blocks k = some rk) (hid : rk.inode_id = id) (hk128 : k < 128)
    (hbefore : ∀ i, i < k → ∃ r, dir_rec blocks i = some r ∧ r.inode_id ≠ id) :
    ∀ (d j fuel : Nat), j + d = k → d < fuel →
      unlink_find blocks id fuel ((j / 4 : Nat) : Int) ((j % 4 : Nat) : Int)
        = Except.ok (((k / 4 : Nat) : Int), ((k % 4 : Nat) : Int)) := by
  intro d
  induction d with
  | zero =>
    intro j fuel hj hf
    have hjk : j = k := by omega
    subst hjk
    cases fuel with
    | zero => exact absurd hf (Nat.lt_irrefl 0)
    | succ f =>
      unfold unlink_find
      rw [get_rec_of_dir_rec blocks j rk hk hk128]
      have hn : ¬ rk.inode_id ≠ id := not_not.mpr hid
      simp only [except_bind_ok, if_neg hn]
      rfl
  | succ d ih =>
    intro j fuel hj hf
    cases fuel with
    | zero => exact absurd hf (Nat.not_lt_zero _)
    | succ f =>
      have hjk : j < k := by omega
      obtain ⟨r, hr, hne⟩ := hbefore j hjk
      unfold unlink_find
      rw [get_rec_of_dir_rec blocks j r hr (lt_trans hjk hk128)]
      simp only [except_bind_ok, if_pos hne]
      by_cases hw : j % 4 + 1 = 4
      · rw [if_pos ((pos_wrap_iff j).mpr hw)]
        have h2 := next_slot_wrap j hw
        have h3 := ih (j + 1) f (by omega) (Nat.lt_of_succ_lt_succ hf)
        rw [h2.1, h2.2] at h3
        simpa using h3
      · rw [if_neg (fun h => hw ((pos_wrap_iff j).mp h))]
        have h2 := next_slot_same j hw
        have h3 := ih (j + 1) f (by omega) (Nat.lt_of_succ_lt_succ hf)
        rw [h2.1, h2.2] at h3
        simpa using h3

theorem slot_eq_iff (i k : Nat) : i = k ↔ (i / 4 = k / 4 ∧ i % 4 = k % 4) := by
  omega

/-- Assignment to record `k` of a directory. -/
theorem set_rec_spec (blocks : List (Option Block)) (k : Nat) (rk r : DirRecord)
    (hk : dir_rec blocks k = some rk) (hk128 : k < 128) :
    ∃ blocks2, set_rec blocks ((k / 4 : Nat) : Int) ((k % 4 : Nat) : Int) r = Except.ok blocks2 ∧
      blocks2.length = blocks.length ∧
      ∀ i, dir_rec blocks2 i = if i = k then some r else dir_rec blocks i := by
  have hb := slot_bounds k hk128
  unfold dir_rec at hk
  cases hblk : blocks[k / 4]? with
  | none => rw [hblk] at hk; cases hk
  | some b =>
    rw [hblk] at hk
    cases b with
    | none => cases hk
    | some blk =>
      cases blk with
      | data d => cases hk
      | recs rs =>
        simp only at hk
        have hq : k / 4 < blocks.length := by
          rcases Nat.lt_or_ge (k / 4) blocks.length with h | h
          · exact h
          · rw [List.getElem?_eq_none h] at hblk; cases hblk
        have hp : k % 4 < rs.length := by
          rcases Nat.lt_or_ge (k % 4) rs.length with h | h
          · exact h
          · rw [List.getElem?_eq_none h] at hk; cases hk
        refine ⟨blocks.set (k / 4) (some (Block.recs (rs.set (k % 4) r))), ?_, ?_, ?_⟩
        · unfold set_rec get_block set_block
          simp only [BLOCKS_PER_FILE, hb.1, hb.2.1, hb.2.2, and_self, if_true, Int.toNat_ofNat,
            hblk, except_bind_ok, pure_bind, recs_of, hp, hq, true_and]
          rfl
        · exact List.length_set _ _ _
        · intro i
          unfold dir_rec
          rw [List.getElem?_set]
          by_cases hi4 : k / 4 = i / 4
          · simp only [hi4, if_true]
            rw [← hi4, if_pos hq, hblk]
            simp only
            rw [List.getElem?_set]
            by_cases hi5 : k % 4 = i % 4
            · have hik : i = k := (slot_eq_iff i k).mpr ⟨hi4.symm, hi5.symm⟩
              rw [if_pos hi5, if_pos hik, if_pos hp]
            · have hik : ¬ i = k := fun h => hi5 (by rw [h])
              rw [if_neg hi5, if_neg hik]
          · have hik : ¬ i = k := fun h => hi4 (by rw [h])
            simp only [hi4, if_false, hik]

theorem swap_remove_perm {α : Type} : ∀ (L L2 : List α) (k : Nat),
    L2.length + 1 = L.length → k < L.length →
    (∀ i, i < L2.length → L2[i]? = if i = k then L[L2.length]? else L[i]?) →
    L2.Perm (L.eraseIdx k) := by
  intro L
  induction L with
  | nil => intro L2 k hl hk _; exact absurd hk (Nat.not_lt_zero k)
  | cons x xs ih =>
    intro L2 k hl hk h
    simp only [List.length_cons, Nat.add_right_cancel_iff] at hl
    cases k with
    | zero =>
      simp only [List.eraseIdx_cons_zero]
      cases L2 with
      | nil =>
        have : xs = [] := List.length_eq_zero.mp (by simpa using hl.symm)
        subst this
        exact List.Perm.refl _
      | cons y ys =>
        simp only [List.length_cons] at hl
        have hne : xs ≠ [] := by
          intro h0; subst h0; simp at hl
        have hy : (y :: ys) = xs.getLast hne :: xs.dropLast := by
          apply List.ext_getElem?
          intro i
          by_cases hi : i < (y :: ys).length
          · rw [h i hi]
            cases i with
            | zero =>
              simp only [if_true, List.length_cons, List.getElem?_cons_succ,
                List.getElem?_cons_zero]
              rw [List.getLast_eq_getElem, List.getElem?_eq_getElem (by omega)]
              simp [← hl]
            | succ i =>
              simp only [List.length_cons] at hi
              simp only [Nat.succ_ne_zero, if_false, List.getElem?_cons_succ,
                List.getElem?_dropLast, List.getElem?_take_of_lt, ← hl]
              have : i < xs.length - 1 := by omega
              simp [List.getElem?_take_of_lt, this, hl]
          · have h1 : (y :: ys).length ≤ i := not_lt.mp hi
            rw [List.getElem?_eq_none h1, List.getElem?_eq_none]
            simp only [List.length_cons, List.length_dropLast] at h1 ⊢
            omega
        rw [hy]
        have hx : xs = xs.dropLast ++ [xs.getLast hne] := (List.dropLast_append_getLast hne).symm
        conv_rhs => rw [hx]
        exact (List.perm_append_singleton _ _).symm
    | succ k =>
      simp only [List.length_cons] at hk
      cases L2 with
      | nil => simp at hl; omega
      | cons y ys =>
        simp only [List.length_cons] at hl h
        have h0 := h 0 (Nat.succ_pos _)
        simp only [List.getElem?_cons_zero, Nat.zero_ne_add_one, if_false, Option.some.injEq,
          (Nat.succ_ne_zero k).symm] at h0
        subst h0
        simp only [List.eraseIdx_cons_succ]
        apply List.Perm.cons
        apply ih ys k (by omega) (by omega)
        intro i hi
        have hi2 := h (i + 1) (by omega)
        simp only [List.getElem?_cons_succ, Nat.add_right_cancel_iff] at hi2
        exact hi2

theorem deref_store_other (st : FS) (p q : Ptr) (g : Inode) (h : p ≠ q) :
    deref (store st q g) p = deref st p := by
  cases p with
  | bad =>
    cases q with
    | bad => exact absurd rfl h
    | node b => rfl
  | node a =>
    cases q with
    | bad => rfl
    | node b =>
      have hab : b ≠ a := fun hh => h (by rw [hh])
      show (match (st.heap.set b g)[a]? with
        | some n => (pure n : Except Fault Inode)
        | none => throw Fault.segfault) = (match st.heap[a]? with
        | some n => (pure n : Except Fault Inode)
        | none => throw Fault.segfault)
      rw [List.getElem?_set]
      simp [hab]

theorem dir_list_length (blocks : List (Option Block)) (n : Nat) :
    (dir_list blocks n).length = n := by
  simp [dir_list]

theorem dir_list_get (blocks : List (Option Block)) (n i : Nat) (h : i < n) :
    (dir_list blocks n)[i]? = some (dir_rec blocks i) := by
  simp [dir_list, List.getElem?_map, List.getElem?_range h]

theorem last_slot (n : Nat) (h : 0 < n) :
    Int.tdiv ((n : Int) - 1) 4 = (((n - 1) / 4 : Nat) : Int) ∧
    Int.tmod ((n : Int) - 1) 4 = (((n - 1) % 4 : Nat) : Int) := by
  have h1 : (n : Int) - 1 = ((n - 1 : Nat) : Int) := by omega
  rw [h1]
  exact ⟨(Int.ofNat_tdiv (n - 1) 4).symm, (Int.ofNat_tmod (n - 1) 4).symm⟩

theorem size_pred (n : Nat) (h : 0 < n) : (n : Int) - 1 = ((n - 1 : Nat) : Int) := by
  omega

/-- C18 (confirmed): let `path` resolve to the inode `t` with inode id `id`, and its
parent path to another inode `par`, a directory that holds `n <= 128` records in
`struct DirRecord[4]` blocks, the record at index `k < n` carrying `id` and no
record before it carrying `id`.  (Paths that resolve fit the 32 bytes of `pth`, a
path that `split_path` splits fits `parent` and `leaf`, and the name of a record
fits `char name[28]`: `lookup_fits`, `split_path_fits`, `DirRecord.name_fits`.)  Then `myfs2_unlink(path)` returns 0 and leaves
the directory with size `n - 1`, record `k` equal to the old record `n - 1` and
every other record of index below `n - 1` unchanged; the records listed afterwards
are, up to order, the old ones without the record at index `k`. -/
theorem unlink_swap_compact (st : FS) (path pp leaf : List Char) (t par : Ptr) (p tn : Inode)
    (id : Int) (n k : Nat) (rk : DirRecord)
    (ht : lookup st path = Except.ok t) (hid : get_inode_id st t = Except.ok id)
    (hsp : split_path path = Except.ok (pp, leaf)) (hpar : lookup st pp = Except.ok par)
    (hp : deref st par = Except.ok p) (htn : deref st t = Except.ok tn) (hne : t ≠ par)
    (hsize : p.size = (n : Int)) (hdir : DirBlocks p.blocks n) (hkn : k < n)
    (hk : dir_rec p.blocks k = some rk) (hrk : rk.inode_id = id)
    (hfirst : ∀ i r, i < k → dir_rec p.blocks i = some r → r.inode_id ≠ id) :
    ∃ (st2 : FS) (p2 : Inode), myfs2_unlink st path = Except.ok (st2, 0) ∧
      deref st2 par = Except.ok p2 ∧ p2.size = ((n - 1 : Nat) : Int) ∧
      (∀ i, i < n - 1 →
        dir_rec p2.blocks i = if i = k then dir_rec p.blocks (n - 1) else dir_rec p.blocks i) ∧
      (dir_list p2.blocks (n - 1)).Perm ((dir_list p.blocks n).eraseIdx k) := by
  have hn0 : 0 < n := Nat.lt_of_le_of_lt (Nat.zero_le k) hkn
  have hn128 : n ≤ 128 := hdir.2.1
  have hk128 : k < 128 := Nat.lt_of_lt_of_le hkn hn128
  obtain ⟨rl, hrl⟩ := dir_rec_some p.blocks n (n - 1) hdir (Nat.sub_lt hn0 Nat.one_pos)
  have hbefore : ∀ i, i < k → ∃ r, dir_rec p.blocks i = some r ∧ r.inode_id ≠ id := by
    intro i hi
    obtain ⟨r, hr⟩ := dir_rec_some p.blocks n i hdir (lt_trans hi hkn)
    exact ⟨r, hr, hfirst i r hi hr⟩
  have hfind := unlink_find_spec p.blocks id k rk hk hrk hk128 hbefore k 0 (BLOCKS_PER_FILE * 4 + 1)
    (Nat.zero_add k) (Nat.lt_succ_of_le (le_of_lt hk128))
  have hlast := get_rec_of_dir_rec p.blocks (n - 1) rl hrl
    (Nat.lt_of_lt_of_le (Nat.sub_lt hn0 Nat.one_pos) hn128)
  obtain ⟨blocks2, hset, _, hrec2⟩ := set_rec_spec p.blocks k rk rl hk hk128
  have hls := last_slot n hn0
  -- the state after the parent has been updated
  have hd1 : deref (store st par { p with blocks := blocks2, size := p.size - 1 }) t
      = Except.ok tn := by
    rw [deref_store_other _ _ _ _ hne]; exact htn
  have hrecs : ∀ i, i < n - 1 →
      dir_rec blocks2 i = if i = k then dir_rec p.blocks (n - 1) else dir_rec p.blocks i := by
    intro i _
    rw [hrec2 i, hrl]
  have hperm : (dir_list blocks2 (n - 1)).Perm ((dir_list p.blocks n).eraseIdx k) := by
    apply swap_remove_perm
    · rw [dir_list_length, dir_list_length]; exact Nat.sub_add_cancel hn0
    · rw [dir_list_length]; exact hkn
    · intro i hi
      rw [dir_list_length] at hi ⊢
      rw [dir_list_get _ _ _ hi, hrecs i hi,
        dir_list_get _ _ _ (Nat.sub_lt hn0 Nat.one_pos),
        dir_list_get _ _ _ (lt_of_lt_of_le hi (Nat.sub_le _ _))]
      split <;> rfl
  have hsz2 : p.size - 1 = ((n - 1 : Nat) : Int) := by rw [hsize]; exact size_pred n hn0
  unfold myfs2_unlink
  simp only [ht, hid, hsp, hpar, hp, except_bind_ok, hsize, hls.1, hls.2]
  have h00 : unlink_find p.blocks id (BLOCKS_PER_FILE * 4 + 1) 0 0
      = Except.ok (((k / 4 : Nat) : Int), ((k % 4 : Nat) : Int)) := by
    simpa using hfind
  rw [h00]
  simp only [except_bind_ok, hlast, hset, pure_bind, modify, ← hsize, hd1]
  rw [deref_store_same _ t tn _ hd1]
  simp only [except_bind_ok]
  have hpar1 : deref (store st par { p with blocks := blocks2, size := p.size - 1 }) par
      = Except.ok { p with blocks := blocks2, size := p.size - 1 } :=
    deref_store_same st par p _ hp
  by_cases hz : tn.n_links - 1 = 0
  · rw [if_pos hz]
    refine ⟨_, { p with blocks := blocks2, size := p.size - 1 }, rfl, ?_, hsz2, hrecs, hperm⟩
    rw [deref_store_other _ _ _ _ (Ne.symm hne), deref_store_other _ _ _ _ (Ne.symm hne)]
    exact hpar1
  · rw [if_neg hz]
    refine ⟨_, { p with blocks := blocks2, size := p.size - 1 }, rfl, ?_, hsz2, hrecs, hperm⟩
    rw [deref_store_other _ _ _ _ (Ne.symm hne)]
    exact hpar1

/-- Witness of C18: `unlink /a` in the state after `mknod /a; mknod /b; mknod /c`;
the root holds 5 records in 2 blocks, `k = 2`. -/
theorem unlink_swap_compact_witness :
    lookup fs_three_files "/a".toList = Except.ok (Ptr.node 1) ∧
    get_inode_id fs_three_files (Ptr.node 1) = Except.ok 1 ∧
    lookup fs_three_files "/".toList = Except.ok (Ptr.node 0) ∧
    deref fs_three_files (Ptr.node 0) = Except.ok three_files_root ∧
    dir_rec three_files_root.blocks 2 = some { inode_id := 1, name := ['a'] } ∧
    ∃ (st2 : FS) (p2 : Inode), myfs2_unlink fs_three_files "/a".toList = Except.ok (st2, 0) ∧
      deref st2 (Ptr.node 0) = Except.ok p2 ∧ p2.size = ((5 - 1 : Nat) : Int) ∧
      (∀ i, i < 5 - 1 → dir_rec p2.blocks i
        = if i = 2 then dir_rec three_files_root.blocks (5 - 1)
          else dir_rec three_files_root.blocks i) ∧
      (dir_list p2.blocks (5 - 1)).Perm ((dir_list three_files_root.blocks 5).eraseIdx 2) :=
  ⟨rfl, rfl, rfl, rfl, rfl,
   unlink_swap_compact fs_three_files "/a".toList "/".toList "a".toList (Ptr.node 1) (Ptr.node 0)
    three_files_root
    { type := TYPE_REG, size := 0, n_links := 1, blocks := List.replicate BLOCKS_PER_FILE none,
      next := some 2, prev := some 0 }
    1 5 2 { inode_id := 1, name := ['a'] } rfl rfl rfl rfl rfl rfl (by decide) rfl (by decide)
    (by decide) rfl rfl
    (by
      intro i r hi hr
      have hcases : i = 0 ∨ i = 1 := by omega
      rcases hcases with h | h
      · subst h
        have : r = { inode_id := 0, name := ['.'] } := by
          have h2 : dir_rec three_files_root.blocks 0 = some { inode_id := 0, name := ['.'] } := rfl
          rw [h2] at hr; exact (Option.some.inj hr).symm
        subst this; decide
      · subst h
        have : r = { inode_id := 0, name := ['.', '.'] } := by
          have h2 : dir_rec three_files_root.blocks 1
              = some { inode_id := 0, name := ['.', '.'] } := rfl
          rw [h2] at hr; exact (Option.some.inj hr).symm
        subst this; decide)⟩

/-! ## C20: the inode of a removed directory -/

theorem except_bind_error {α β : Type} (e : Fault) (f : α → Except Fault β) :
    ((Except.error e : Except Fault α) >>= f) = Except.error e := rfl

theorem chain_from_next : ∀ (l : List Inode) (a : Nat), chain_from a l = true →
    ∀ i n, l[i]? = some n → n.next = if i + 1 < l.length then some (a + i + 1) else none := by
  intro l
  induction l with
  | nil => intro a _ i n h; simp at h
  | cons x xs ih =>
    intro a hc i n h
    cases xs with
    | nil =>
      cases i with
      | zero =>
        simp only [List.getElem?_cons_zero, Option.some.injEq] at h
        subst h
        simpa [chain_from] using hc
      | succ i => simp at h
    | cons y ys =>
      simp only [chain_from, Bool.and_eq_true, beq_iff_eq] at hc
      cases i with
      | zero =>
        simp only [List.getElem?_cons_zero, Option.some.injEq] at h
        subst h
        simp [hc.1]
      | succ i =>
        simp only [List.getElem?_cons_succ] at h
        have h2 := ih (a + 1) hc.2 i n h
        rw [h2]
        simp only [List.length_cons, Nat.add_lt_add_iff_right]
        have e : a + 1 + i + 1 = a + (i + 1) + 1 := by omega
        rw [e]

theorem chain_of_chain_from (heap : List Inode) (h : chain_from 0 heap = true) : Chain heap := by
  intro i n hn
  have h2 := chain_from_next heap 0 h i n hn
  simpa using h2

theorem getElem?_of_lt_inode (heap : List Inode) (i : Nat) (h : i < heap.length) :
    ∃ n, heap[i]? = some n := ⟨heap[i], List.getElem?_eq_getElem h⟩

theorem no_free_type (heap : List Inode) (h : no_free heap = true) (i : Nat) (n : Inode)
    (hn : heap[i]? = some n) : n.type ≠ TYPE_NIL := by
  unfold no_free at h
  rw [List.all_eq_true] at h
  have hm : n ∈ heap := List.getElem?_mem hn
  simpa using h n hm

theorem get_bad_inode_loop_none (heap : List Inode) (hc : Chain heap) (hf : no_free heap = true) :
    ∀ (d curr fuel : Nat), curr + d + 1 = heap.length → d < fuel →
      get_bad_inode_loop heap fuel curr = Except.ok none := by
  intro d
  induction d with
  | zero =>
    intro curr fuel hl hfu
    cases fuel with
    | zero => exact absurd hfu (Nat.lt_irrefl 0)
    | succ f =>
      obtain ⟨n, hn⟩ := getElem?_of_lt_inode heap curr (by omega)
      have hnx := hc curr n hn
      have hlt : ¬ curr + 1 < heap.length := by omega
      rw [if_neg hlt] at hnx
      unfold get_bad_inode_loop
      simp only [hn, hnx]
      rw [if_neg (no_free_type heap hf curr n hn)]
      rfl
  | succ d ih =>
    intro curr fuel hl hfu
    cases fuel with
    | zero => exact absurd hfu (Nat.not_lt_zero _)
    | succ f =>
      obtain ⟨n, hn⟩ := getElem?_of_lt_inode heap curr (by omega)
      have hnx := hc curr n hn
      have hlt : curr + 1 < heap.length := by omega
      rw [if_pos hlt] at hnx
      unfold get_bad_inode_loop
      simp only [hn, hnx]
      rw [if_pos (no_free_type heap hf curr n hn)]
      exact ih (curr + 1) f (by omega) (Nat.lt_of_succ_lt_succ hfu)

theorem get_inode_last_chain (heap : List Inode) (hc : Chain heap) :
    ∀ (d curr fuel : Nat), curr + d + 1 = heap.length → d < fuel →
      get_inode_last heap fuel curr = Except.ok (heap.length - 1) := by
  intro d
  induction d with
  | zero =>
    intro curr fuel hl hfu
    cases fuel with
    | zero => exact absurd hfu (Nat.lt_irrefl 0)
    | succ f =>
      obtain ⟨n, hn⟩ := getElem?_of_lt_inode heap curr (by omega)
      have hnx := hc curr n hn
      have hlt : ¬ curr + 1 < heap.length := by omega
      rw [if_neg hlt] at hnx
      unfold get_inode_last
      simp only [hn, hnx]
      have : curr = heap.length - 1 := by omega
      rw [this]
      rfl
  | succ d ih =>
    intro curr fuel hl hfu
    cases fuel with
    | zero => exact absurd hfu (Nat.not_lt_zero _)
    | succ f =>
      obtain ⟨n, hn⟩ := getElem?_of_lt_inode heap curr (by omega)
      have hnx := hc curr n hn
      have hlt : curr + 1 < heap.length := by omega
      rw [if_pos hlt] at hnx
      unfold get_inode_last
      simp only [hn, hnx]
      exact ih (curr + 1) f (by omega) (Nat.lt_of_succ_lt_succ hfu)

theorem get_inode_steps_chain (heap : List Inode) (hc : Chain heap) :
    ∀ (k curr : Nat), curr < heap.length →
      get_inode_steps heap k curr = Except.ok (min (curr + k) (heap.length - 1)) := by
  intro k
  induction k with
  | zero =>
    intro curr hl
    unfold get_inode_steps
    have : min (curr + 0) (heap.length - 1) = curr := by omega
    rw [this]; rfl
  | succ k ih =>
    intro curr hl
    obtain ⟨n, hn⟩ := getElem?_of_lt_inode heap curr hl
    have hnx := hc curr n hn
    unfold get_inode_steps
    simp only [hn]
    by_cases hlt : curr + 1 < heap.length
    · rw [if_pos hlt] at hnx
      simp only [hnx]
      rw [ih (curr + 1) hlt]
      have : curr + 1 + k = curr + (k + 1) := by omega
      rw [this]
    · rw [if_neg hlt] at hnx
      simp only [hnx]
      have : min (curr + (k + 1)) (heap.length - 1) = curr := by omega
      rw [this]; rfl

theorem get_inode_id_loop_chain (heap : List Inode) (hc : Chain heap) :
    ∀ (d curr fuel a : Nat) (idx : Int), curr + d = a → a < heap.length → d < fuel →
      get_inode_id_loop heap (Ptr.node a) fuel curr idx = Except.ok (idx + d) := by
  intro d
  induction d with
  | zero =>
    intro curr fuel a idx hl ha hfu
    cases fuel with
    | zero => exact absurd hfu (Nat.lt_irrefl 0)
    | succ f =>
      have : a = curr := by omega
      subst this
      unfold get_inode_id_loop
      simp
      rfl
  | succ d ih =>
    intro curr fuel a idx hl ha hfu
    cases fuel with
    | zero => exact absurd hfu (Nat.not_lt_zero _)
    | succ f =>
      obtain ⟨n, hn⟩ := getElem?_of_lt_inode heap curr (by omega)
      have hnx := hc curr n hn
      have hlt : curr + 1 < heap.length := by omega
      rw [if_pos hlt] at hnx
      have hne : ¬ Ptr.node a = Ptr.node curr := by
        intro h
        have : a = curr := by injection h
        omega
      unfold get_inode_id_loop
      rw [if_neg hne]
      simp only [hn, hnx]
      rw [ih (curr + 1) f a (idx + 1) (by omega) ha (Nat.lt_of_succ_lt_succ hfu)]
      have : idx + 1 + (d : Int) = idx + ((d + 1 : Nat) : Int) := by omega
      rw [this]

/-- The inner loop of `lookup` returns the id of one of the records. -/
theorem lookup_inner_mem (rs : List DirRecord) (seg : List Char) (size : Int) :
    ∀ (n j : Nat) (w : Int) (id : Int) (w2 : Int),
      lookup_inner rs seg size n j w = Except.ok (some id, w2) →
      ∃ r, r ∈ rs ∧ r.inode_id = id := by
  intro n
  induction n with
  | zero =>
    intro j w id w2 h
    unfold lookup_inner at h
    have h2 := Except.ok.inj h
    have h3 := congrArg Prod.fst h2
    cases h3
  | succ n ih =>
    intro j w id w2 h
    unfold lookup_inner at h
    by_cases hw : w < size
    · rw [if_pos hw] at h
      cases hr : rs[j]? with
      | none => rw [hr] at h; cases h
      | some r =>
        rw [hr] at h
        simp only at h
        by_cases hname : r.name = seg
        · rw [if_pos hname] at h
          have h2 := Except.ok.inj h
          have h3 : some r.inode_id = some id := congrArg Prod.fst h2
          exact ⟨r, List.getElem?_mem hr, Option.some.inj h3⟩
        · rw [if_neg hname] at h
          exact ih (j + 1) (w + 1) id w2 h
    · rw [if_neg hw] at h
      have h2 := Except.ok.inj h
      have h3 := congrArg Prod.fst h2
      cases h3

/-- The outer loop of `lookup` returns the id of a record of one of the blocks. -/
theorem lookup_outer_mem (seg : List Char) (size : Int) :
    ∀ (blocks : List (Option Block)) (w : Int) (id : Int),
      lookup_outer seg size blocks w = Except.ok (some id) →
      ∃ rs, some (Block.recs rs) ∈ blocks ∧ ∃ r, r ∈ rs ∧ r.inode_id = id := by
  intro blocks
  induction blocks with
  | nil =>
    intro w id h
    unfold lookup_outer at h
    have h2 := Except.ok.inj h
    cases h2
  | cons b bs ih =>
    intro w id h
    unfold lookup_outer at h
    by_cases hw : w < size
    · rw [if_pos hw] at h
      cases hb : recs_of b with
      | error e => rw [hb] at h; cases h
      | ok rs =>
        rw [hb] at h
        simp only [except_bind_ok] at h
        have hbrs : b = some (Block.recs rs) := by
          cases b with
          | none => cases hb
          | some blk =>
            cases blk with
            | data d => cases hb
            | recs rs2 =>
              have h2 := Except.ok.inj hb
              rw [h2]
        cases hi : lookup_inner rs seg size 4 0 w with
        | error e => rw [hi] at h; cases h
        | ok res =>
          rw [hi] at h
          simp only [except_bind_ok] at h
          obtain ⟨ro, w2⟩ := res
          cases ro with
          | none =>
            simp only at h
            obtain ⟨rs2, hm, hr⟩ := ih w2 id h
            exact ⟨rs2, List.mem_cons_of_mem _ hm, hr⟩
          | some id2 =>
            simp only at h
            have h2 := Except.ok.inj h
            have h3 : id2 = id := Option.some.inj h2
            subst h3
            obtain ⟨r, hr, hrid⟩ := lookup_inner_mem rs seg size 4 0 w id2 w2 hi
            exact ⟨rs, by rw [hbrs]; exact List.mem_cons_self _ _, r, hr, hrid⟩
    · rw [if_neg hw] at h
      have h2 := Except.ok.inj h
      cases h2

/-- With `ids_in_table`, the id that the scan of a directory of the heap returns is
the id of an inode of the heap. -/
theorem lookup_outer_in_table (heap : List Inode) (hids : ids_in_table heap = true)
    (cur : Nat) (node : Inode) (hn : heap[cur]? = some node) (seg : List Char) (id : Int)
    (h : lookup_outer seg node.size (node.blocks.take BLOCKS_PER_FILE) 0 = Except.ok (some id)) :
    0 ≤ id ∧ id < (heap.length : Int) := by
  obtain ⟨rs, hm, r, hr, hrid⟩ := lookup_outer_mem seg node.size _ 0 id h
  unfold ids_in_table at hids
  rw [List.all_eq_true] at hids
  have h1 := hids node (List.getElem?_mem hn)
  rw [List.all_eq_true] at h1
  have h2 := h1 (some (Block.recs rs)) (List.mem_of_mem_take hm)
  simp only at h2
  rw [List.all_eq_true] at h2
  have h3 := h2 r hr
  simp only [Bool.and_eq_true, decide_eq_true_eq] at h3
  rw [← hrid]
  exact h3

theorem get_inode_chain (st : FS) (hc : Chain st.heap) (id : Int) (h0 : 0 ≤ id)
    (hN : 0 < st.heap.length) :
    get_inode st id = Except.ok (min id.toNat (st.heap.length - 1)) := by
  unfold get_inode
  rw [if_pos h0, get_inode_steps_chain st.heap hc id.toNat 0 hN, Nat.zero_add]

theorem min_lt_length (k N : Nat) (h : 0 < N) : min k (N - 1) < N := by
  omega

/-- Resolution is the same in two states that show the same type, size and blocks in
every cell of the first and walk the chain alike for the ids of the first. -/
theorem lookup_loop_extend (st st2 : FS) (hc : Chain st.heap)
    (hids : ids_in_table st.heap = true)
    (hview : ∀ cur, cur < st.heap.length → ∃ a b, st.heap[cur]? = some a ∧
      st2.heap[cur]? = some b ∧ a.type = b.type ∧ a.size = b.size ∧ a.blocks = b.blocks)
    (hget : ∀ id : Int, 0 ≤ id → id < (st.heap.length : Int) →
      get_inode st2 id = get_inode st id) :
    ∀ (segs : List (List Char)) (cur : Nat) (found : Bool), cur < st.heap.length →
      lookup_loop st2 segs cur found = lookup_loop st segs cur found := by
  intro segs
  induction segs with
  | nil => intro cur found _; rfl
  | cons seg rest ih =>
    intro cur found hcur
    obtain ⟨a, b, ha, hb, ht, hs, hbl⟩ := hview cur hcur
    have hda : deref st (Ptr.node cur) = Except.ok a := (deref_node_eq st cur a).mpr ha
    have hdb : deref st2 (Ptr.node cur) = Except.ok b := (deref_node_eq st2 cur b).mpr hb
    unfold lookup_loop
    rw [hda, hdb]
    simp only [except_bind_ok]
    by_cases htype : a.type ≠ TYPE_DIR
    · rw [if_pos htype, if_pos (by rw [← ht]; exact htype)]
    · rw [if_neg htype, if_neg (by rw [← ht]; exact htype), ← hs, ← hbl]
      cases ho : lookup_outer seg a.size (List.take BLOCKS_PER_FILE a.blocks) 0 with
      | error e => rfl
      | ok r =>
        simp only [except_bind_ok]
        cases r with
        | none => exact ih cur false hcur
        | some id =>
          simp only
          obtain ⟨h0, h1⟩ := lookup_outer_in_table st.heap hids cur a ha seg id ho
          rw [hget id h0 h1, get_inode_chain st hc id h0 (Nat.lt_of_le_of_lt (Nat.zero_le _) hcur)]
          simp only [except_bind_ok]
          exact ih _ true (min_lt_length _ _ (Nat.lt_of_le_of_lt (Nat.zero_le _) hcur))

theorem slot_of_size (s : Nat) :
    Int.tdiv (s : Int) 4 = ((s / 4 : Nat) : Int) ∧ Int.tmod (s : Int) 4 = ((s % 4 : Nat) : Int) :=
  ⟨(Int.ofNat_tdiv s 4).symm, (Int.ofNat_tmod s 4).symm⟩

theorem mod4_cast_zero (s : Nat) : (((s % 4 : Nat) : Int) = 0) ↔ s % 4 = 0 := by
  omega

theorem block_lt_of_mod_zero (s i : Nat) (h : s % 4 = 0) (hi : i < s) : i / 4 ≠ s / 4 := by
  omega

theorem block_in_range_of_mod (s : Nat) (h : ¬ s % 4 = 0) : s / 4 < (s + 3) / 4 := by
  omega

theorem block_lt_32 (s : Nat) (h : s < 128) : s / 4 < 32 := by
  omega

/-- The statement `if (!pos) blocks[block_id] = calloc(1, BLOCK_SIZE);` for a
directory that holds `s < 128` records: slot `s` exists afterwards and the records
before it are untouched. -/
theorem reserve_blocks (blocks : List (Option Block)) (s : Nat) (hdir : DirBlocks blocks s)
    (hs : s < 128) :
    ∃ b1, (if Int.tmod (s : Int) 4 = 0 then set_block blocks (Int.tdiv (s : Int) 4) (some zero_recs)
        else pure blocks) = Except.ok b1 ∧
      (∃ r, dir_rec b1 s = some r) ∧ ∀ i, i < s → dir_rec b1 i = dir_rec blocks i := by
  have hsl := slot_of_size s
  have hlen : blocks.length = 32 := hdir.1
  have hq := block_lt_32 s hs
  rw [hsl.1, hsl.2]
  by_cases hm : s % 4 = 0
  · rw [if_pos ((mod4_cast_zero s).mpr hm)]
    refine ⟨blocks.set (s / 4) (some zero_recs), ?_, ?_, ?_⟩
    · unfold set_block
      have hb := slot_bounds s hs
      have hc : (0 : Int) ≤ ((s / 4 : Nat) : Int) ∧ ((s / 4 : Nat) : Int) < ((BLOCKS_PER_FILE : Nat) : Int)
          ∧ ((s / 4 : Nat) : Int).toNat < blocks.length := by
        refine ⟨hb.1, hb.2.1, ?_⟩
        rw [Int.toNat_ofNat, hlen]; exact hq
      rw [if_pos hc, Int.toNat_ofNat]
      rfl
    · unfold dir_rec
      rw [List.getElem?_set, if_pos rfl, if_pos (by rw [hlen]; exact hq), hm]
      exact ⟨_, rfl⟩
    · intro i hi
      unfold dir_rec
      rw [List.getElem?_set, if_neg (Ne.symm (block_lt_of_mod_zero s i hm hi))]
  · rw [if_neg (fun h => hm ((mod4_cast_zero s).mp h))]
    refine ⟨blocks, rfl, ?_, fun i _ => rfl⟩
    obtain ⟨rs, hrs, hl⟩ := recs_first_get _ blocks (s / 4) hdir.2.2 (block_in_range_of_mod s hm)
    unfold dir_rec
    rw [hrs]
    have hlt : s % 4 < rs.length := by rw [hl]; exact slot_pos_lt s
    exact ⟨rs[s % 4], List.getElem?_eq_getElem hlt⟩

theorem modify_ok (st : FS) (p : Ptr) (f : Inode → Inode) (n : Inode)
    (h : deref st p = Except.ok n) : modify st p f = Except.ok (store st p (f n)) := by
  unfold modify
  rw [h]
  rfl

/-- Appending one record to the directory `*parent_dir`, which holds `s < 128`
records: the statements of `dir_reserve` and `dir_put`, for a leaf that fits. -/
theorem dir_append_spec (st : FS) (par : Ptr) (q : Inode) (s : Nat) (id : Int)
    (leaf : List Char) (hleaf : leaf.length < 28)
    (hq : deref st par = Except.ok q) (hsz : q.size = (s : Int))
    (hdir : DirBlocks q.blocks s) (hs : s < 128) :
    ∃ (b1 b2 : List (Option Block)),
      dir_reserve st par = Except.ok (store st par { q with blocks := b1, size := q.size + 1 },
        ((s / 4 : Nat) : Int), ((s % 4 : Nat) : Int)) ∧
      (∀ st3, deref st3 par = Except.ok { q with blocks := b1, size := q.size + 1 } →
        dir_put st3 par ((s / 4 : Nat) : Int) ((s % 4 : Nat) : Int) id leaf
          = Except.ok (store st3 par { q with blocks := b2, size := q.size + 1 })) ∧
      dir_rec b2 s = some { inode_id := id, name := leaf, name_fits := hleaf } ∧
      ∀ i, i < s → dir_rec b2 i = dir_rec q.blocks i := by
  obtain ⟨b1, hb1, ⟨r1, hr1⟩, hkeep1⟩ := reserve_blocks q.blocks s hdir hs
  obtain ⟨b2, hb2, _, hrec2⟩ := set_rec_spec b1 s r1
    { inode_id := id, name := leaf, name_fits := hleaf } hr1 hs
  have hsl := slot_of_size s
  refine ⟨b1, b2, ?_, ?_, ?_, ?_⟩
  · unfold dir_reserve
    rw [hq]
    rw [hsl.1, hsl.2] at hb1
    simp only [except_bind_ok, hsz, hsl.1, hsl.2]
    by_cases hm : ((s % 4 : Nat) : Int) = 0
    · rw [if_pos hm] at hb1 ⊢
      rw [hb1]
      rfl
    · rw [if_neg hm] at hb1 ⊢
      rw [hb1]
      rfl
  · intro st3 h3
    unfold dir_put
    rw [h3]
    simp only [except_bind_ok, dif_pos hleaf, hb2]
    rfl
  · rw [hrec2 s, if_pos rfl]
  · intro i hi
    rw [hrec2 i, if_neg (Nat.ne_of_lt hi), hkeep1 i hi]

/-- The walk of `get_inode(-1)` in a heap whose first `N` cells form the chain
`0 -> 1 -> ... -> N - 1 -> NULL`. -/
theorem get_inode_last_prefix (heap : List Inode) (N : Nat)
    (hc : ∀ i, i < N → ∃ n, heap[i]? = some n ∧
      n.next = if i + 1 < N then some (i + 1) else none) :
    ∀ (d curr fuel : Nat), curr + d + 1 = N → d < fuel →
      get_inode_last heap fuel curr = Except.ok (N - 1) := by
  intro d
  induction d with
  | zero =>
    intro curr fuel hl hfu
    cases fuel with
    | zero => exact absurd hfu (Nat.lt_irrefl 0)
    | succ f =>
      obtain ⟨n, hn, hnx⟩ := hc curr (by omega)
      have hlt : ¬ curr + 1 < N := by omega
      rw [if_neg hlt] at hnx
      unfold get_inode_last
      simp only [hn, hnx]
      have : curr = N - 1 := by omega
      rw [this]
      rfl
  | succ d ih =>
    intro curr fuel hl hfu
    cases fuel with
    | zero => exact absurd hfu (Nat.not_lt_zero _)
    | succ f =>
      obtain ⟨n, hn, hnx⟩ := hc curr (by omega)
      have hlt : curr + 1 < N := by omega
      rw [if_pos hlt] at hnx
      unfold get_inode_last
      simp only [hn, hnx]
      exact ih (curr + 1) f (by omega) (Nat.lt_of_succ_lt_succ hfu)

theorem linked_heap_spec (H : List Inode) (l new0 new1 : Inode) (hpos : 0 < H.length)
    (_hl : H[H.length - 1]? = some l) :
    (linked_heap H l new0 new1).length = H.length + 1 ∧
    (linked_heap H l new0 new1)[H.length]? = some new1 ∧
    (linked_heap H l new0 new1)[H.length - 1]? = some { l with next := some H.length } ∧
    ∀ i, i < H.length - 1 → (linked_heap H l new0 new1)[i]? = H[i]? := by
  unfold linked_heap
  refine ⟨by simp, ?_, ?_, ?_⟩
  · rw [List.getElem?_set, if_pos rfl, if_pos (by simp)]
  · have h1 : H.length ≠ H.length - 1 := by omega
    rw [List.getElem?_set, if_neg h1, List.getElem?_set, if_pos rfl, if_pos (by simp; omega)]
  · intro i hi
    have h1 : H.length ≠ i := by omega
    have h2 : H.length - 1 ≠ i := by omega
    rw [List.getElem?_set, if_neg h1, List.getElem?_set, if_neg h2, List.getElem?_set,
      if_neg h1, List.getElem?_append_left (by omega)]

theorem chain_linked_heap (H : List Inode) (l new0 new1 : Inode) (hc : Chain H)
    (hpos : 0 < H.length) (hl : H[H.length - 1]? = some l) (hn1 : new1.next = none) :
    Chain (linked_heap H l new0 new1) := by
  obtain ⟨hlen, hN, hL, hrest⟩ := linked_heap_spec H l new0 new1 hpos hl
  intro i n hn
  rw [hlen]
  rcases Nat.lt_trichotomy i (H.length - 1) with hlt | heq | hgt
  · rw [hrest i hlt] at hn
    rw [hc i n hn, if_pos (by omega), if_pos (by omega)]
  · rw [heq, hL] at hn
    have := Option.some.inj hn
    subst this
    rw [heq, if_pos (by omega)]
    simp only
    have : H.length - 1 + 1 = H.length := by omega
    rw [this]
  · by_cases hi : i = H.length
    · rw [hi, hN] at hn
      have := Option.some.inj hn
      subst this
      rw [hn1, hi, if_neg (by omega)]
    · have hge : (linked_heap H l new0 new1).length ≤ i := by rw [hlen]; omega
      rw [List.getElem?_eq_none hge] at hn
      cases hn

theorem chain_set (H : List Inode) (hc : Chain H) (P : Nat) (q q2 : Inode)
    (hq : H[P]? = some q) (hn : q2.next = q.next) : Chain (H.set P q2) := by
  intro i n hi
  rw [List.length_set]
  rw [List.getElem?_set] at hi
  by_cases hPi : P = i
  · rw [if_pos hPi] at hi
    subst hPi
    by_cases hlt : P < H.length
    · rw [if_pos hlt] at hi
      have := Option.some.inj hi
      subst this
      rw [hn]
      exact hc P q hq
    · rw [if_neg hlt] at hi
      cases hi
  · rw [if_neg hPi] at hi
    exact hc i n hi

theorem new_inode_fresh (st : FS) (hc : Chain st.heap) (hnf : no_free st.heap = true)
    (hpos : 0 < st.heap.length) :
    new_inode st = Except.ok ({ st with heap := st.heap ++ [zero_inode] }, st.heap.length) := by
  unfold new_inode get_bad_inode
  rw [get_bad_inode_loop_none st.heap hc hnf (st.heap.length - 1) 0 st.heap.length (by omega)
    (by omega)]
  rfl

/-! ## C6: `myfs2_mknod` of a path that already resolves -/

/-- C6 (counterexample): in the state after `mknod /a` the path `/a` resolves to inode
1, the table has 2 cells and the root holds 3 records. `mknod /a` again returns 0, and
afterwards the table has 3 cells and the root holds 4 records, two of them named `a`:
the existing node is not used, a new inode is allocated and a record is added. -/
theorem mknod_existing_path_counterexample :
    lookup fs_with_file "/a".toList = Except.ok (Ptr.node 1) ∧
    fs_with_file.heap.length = 2 ∧
    deref fs_with_file (Ptr.node 0) = Except.ok with_file_root ∧
    with_file_root.size = 3 ∧
    myfs2_mknod fs_with_file "/a".toList = Except.ok (fs_file_twice, 0) ∧
    fs_file_twice.heap.length = 3 ∧
    (deref fs_file_twice (Ptr.node 0)).map (fun n => (n.size, dir_list n.blocks 4))
      = Except.ok (4, [some { inode_id := 0, name := ['.'] },
                       some { inode_id := 0, name := ['.', '.'] },
                       some { inode_id := 1, name := ['a'] },
                       some { inode_id := 2, name := ['a'] }]) :=
  ⟨rfl, rfl, rfl, rfl, rfl, rfl, rfl⟩

/-- C6 (amended): `myfs2_mknod(path)` never looks `path` up. In a state whose inode
chain is the table in order, with no free inode and with record ids inside the table,
for every `path`, also one that already resolves to a node, that the buffers of the
program hold (`split_path` and the `lookup` of the parent path return, so the parent
path has fewer than 32 bytes, and the leaf has fewer than 28 bytes, the room of
`name`), and whose parent resolves to the directory `P` holding `s < 128` records:
the call returns 0; the table grows by one cell, which holds a regular inode of size
0 with link count 1; the parent keeps its type and link count, its size becomes
`s + 1`, its record `s` is `(leaf, id of the new cell)` and its records before `s`
are unchanged; every other inode of the old table keeps its type, size, link count
and blocks. -/
theorem mknod_always_appends (st : FS) (path pp leaf : List Char) (P : Nat) (p : Inode) (s : Nat)
    (hc : Chain st.heap) (hnf : no_free st.heap = true) (hids : ids_in_table st.heap = true)
    (hsp : split_path path = Except.ok (pp, leaf)) (hleaf : leaf.length < 28)
    (hpar : lookup st pp = Except.ok (Ptr.node P)) (hp : deref st (Ptr.node P) = Except.ok p)
    (hsz : p.size = (s : Int)) (hdir : DirBlocks p.blocks s) (hs : s < 128) :
    ∃ (st4 : FS) (p4 : Inode), myfs2_mknod st path = Except.ok (st4, 0) ∧
      st4.heap.length = st.heap.length + 1 ∧
      deref st4 (Ptr.node st.heap.length) = Except.ok (fresh_file (st.heap.length - 1)) ∧
      deref st4 (Ptr.node P) = Except.ok p4 ∧
      p4.type = p.type ∧ p4.n_links = p.n_links ∧ p4.size = (s : Int) + 1 ∧
      dir_rec p4.blocks s
        = some { inode_id := (st.heap.length : Int), name := leaf, name_fits := hleaf } ∧
      (∀ i, i < s → dir_rec p4.blocks i = dir_rec p.blocks i) ∧
      (∀ i a, i ≠ P → st.heap[i]? = some a → ∃ b, st4.heap[i]? = some b ∧ b.type = a.type ∧
        b.size = a.size ∧ b.n_links = a.n_links ∧ b.blocks = a.blocks) := by
  have hP : P < st.heap.length := deref_node_lt st P p hp
  have hpos : 0 < st.heap.length := Nat.lt_of_le_of_lt (Nat.zero_le _) hP
  obtain ⟨l, hl⟩ := getElem?_of_lt_inode st.heap (st.heap.length - 1) (Nat.sub_lt hpos Nat.one_pos)
  -- the statements up to the relinking
  have hA : deref ({ st with heap := st.heap ++ [zero_inode] } : FS) (Ptr.node st.heap.length)
      = Except.ok zero_inode := by
    rw [deref_node_eq]
    show (st.heap ++ [zero_inode])[st.heap.length]? = some zero_inode
    rw [List.getElem?_append_right (le_refl _)]
    simp
  unfold myfs2_mknod
  rw [new_inode_fresh st hc hnf hpos]
  simp only [except_bind_ok]
  rw [modify_ok _ _ _ _ hA]
  simp only [except_bind_ok]
  set new0 : Inode := (Inode.mk TYPE_REG 0 1 zero_inode.blocks none zero_inode.prev) with hnew0
  set st1 : FS := store ({ st with heap := st.heap ++ [zero_inode] } : FS)
    (Ptr.node st.heap.length) new0 with hst1
  have h1heap : st1.heap = (st.heap ++ [zero_inode]).set st.heap.length new0 := rfl
  have h1len : st1.heap.length = st.heap.length + 1 := by rw [h1heap]; simp
  have h1get : ∀ i, i < st.heap.length → st1.heap[i]? = st.heap[i]? := by
    intro i hi
    rw [h1heap, List.getElem?_set, if_neg (by omega), List.getElem?_append_left hi]
  have h1N : st1.heap[st.heap.length]? = some new0 := by
    rw [h1heap, List.getElem?_set, if_pos rfl, if_pos (by simp)]
  -- `get_inode(-1)` finds the old last cell
  have hlast : get_inode st1 (-1) = Except.ok (st.heap.length - 1) := by
    unfold get_inode
    rw [if_neg (by decide)]
    apply get_inode_last_prefix st1.heap st.heap.length _ (st.heap.length - 1) 0
    · omega
    · rw [h1len]; omega
    · intro i hi
      obtain ⟨n, hn⟩ := getElem?_of_lt_inode st.heap i hi
      exact ⟨n, by rw [h1get i hi]; exact hn, hc i n hn⟩
  rw [hlast]
  simp only [except_bind_ok]
  have hd1 : deref st1 (Ptr.node (st.heap.length - 1)) = Except.ok l := by
    rw [deref_node_eq, h1get _ (Nat.sub_lt hpos Nat.one_pos)]; exact hl
  rw [modify_ok _ _ _ _ hd1]
  simp only [except_bind_ok]
  set st1b : FS := store st1 (Ptr.node (st.heap.length - 1))
    ({ l with next := some st.heap.length } : Inode) with hst1b
  have hd1b : deref st1b (Ptr.node st.heap.length) = Except.ok new0 := by
    rw [hst1b, deref_store_other _ _ _ _ (by intro h; injection h with h; omega), deref_node_eq]
    exact h1N
  rw [modify_ok _ _ _ _ hd1b]
  simp only [except_bind_ok, hsp]
  set st2 : FS := store st1b (Ptr.node st.heap.length)
    ({ new0 with prev := some (st.heap.length - 1) } : Inode) with hst2
  have h2heap : st2.heap = linked_heap st.heap l new0 (fresh_file (st.heap.length - 1)) := rfl
  obtain ⟨h2len, h2N, h2L, h2rest⟩ := linked_heap_spec st.heap l new0
    (fresh_file (st.heap.length - 1)) hpos hl
  have h2c : Chain st2.heap := by
    rw [h2heap]; exact chain_linked_heap st.heap l new0 _ hc hpos hl rfl
  have h2len2 : st2.heap.length = st.heap.length + 1 := by rw [h2heap]; exact h2len
  -- the cells of the old table, seen in the new one
  have hview2 : ∀ cur, cur < st.heap.length → ∃ a b, st.heap[cur]? = some a ∧
      st2.heap[cur]? = some b ∧ a.type = b.type ∧ a.size = b.size ∧ a.blocks = b.blocks ∧
      a.n_links = b.n_links ∧ a.prev = b.prev := by
    intro cur hcur
    by_cases hlt : cur < st.heap.length - 1
    · obtain ⟨a, ha⟩ := getElem?_of_lt_inode st.heap cur hcur
      exact ⟨a, a, ha, by rw [h2heap, h2rest cur hlt]; exact ha, rfl, rfl, rfl, rfl, rfl⟩
    · have he : cur = st.heap.length - 1 := by omega
      rw [he]
      exact ⟨l, ({ l with next := some st.heap.length } : Inode), hl,
        by rw [h2heap]; exact h2L, rfl, rfl, rfl, rfl, rfl⟩
  have hview : ∀ cur, cur < st.heap.length → ∃ a b, st.heap[cur]? = some a ∧
      st2.heap[cur]? = some b ∧ a.type = b.type ∧ a.size = b.size ∧ a.blocks = b.blocks := by
    intro cur hcur
    obtain ⟨a, b, h1, h2, h3, h4, h5, _⟩ := hview2 cur hcur
    exact ⟨a, b, h1, h2, h3, h4, h5⟩
  have hget : ∀ id : Int, 0 ≤ id → id < (st.heap.length : Int) →
      get_inode st2 id = get_inode st id := by
    intro id h0 h1
    rw [get_inode_chain st2 h2c id h0 (by rw [h2len2]; omega), get_inode_chain st hc id h0 hpos,
      h2len2]
    have e : min id.toNat (st.heap.length + 1 - 1) = min id.toNat (st.heap.length - 1) := by
      omega
    rw [e]
  have hlook : lookup st2 pp = Except.ok (Ptr.node P) := by
    rw [← hpar]
    unfold lookup
    by_cases hroot : pp = ['/']
    · rw [if_pos hroot, if_pos hroot]
    · rw [if_neg hroot, if_neg hroot]
      by_cases hlong : 32 ≤ pp.length
      · rw [if_pos hlong, if_pos hlong]
      · rw [if_neg hlong, if_neg hlong]
        exact lookup_loop_extend st st2 hc hids hview hget (strtok pp) 0 false hpos
  rw [hlook]
  simp only [except_bind_ok]
  -- the parent in the new table
  obtain ⟨a, p2, ha, hp2, ht2, hs2, hb2, hn2, _⟩ := hview2 P hP
  have hap : a = p := by
    have := (deref_node_eq st P p).mp hp
    rw [ha] at this
    exact Option.some.inj this
  subst hap
  have hd2 : deref st2 (Ptr.node P) = Except.ok p2 := (deref_node_eq st2 P p2).mpr hp2
  obtain ⟨b1, b2, hres, hput, hrec, hkeep⟩ := dir_append_spec st2 (Ptr.node P) p2 s
    (st.heap.length : Int) leaf hleaf hd2 (by rw [← hs2]; exact hsz)
    (by rw [← hb2]; exact hdir) hs
  rw [hres]
  simp only [except_bind_ok]
  set st3 : FS := store st2 (Ptr.node P)
    ({ p2 with blocks := b1, size := p2.size + 1 } : Inode) with hst3
  have h3heap : st3.heap = st2.heap.set P
      ({ p2 with blocks := b1, size := p2.size + 1 } : Inode) := rfl
  have h3c : Chain st3.heap := by
    rw [h3heap]
    exact chain_set st2.heap h2c P p2 _ hp2 rfl
  have h3len : st3.heap.length = st.heap.length + 1 := by
    rw [h3heap, List.length_set]; exact h2len2
  have hid : get_inode_id st3 (Ptr.node st.heap.length) = Except.ok (st.heap.length : Int) := by
    unfold get_inode_id
    rw [get_inode_id_loop_chain st3.heap h3c st.heap.length 0 st3.heap.length st.heap.length 0
      (Nat.zero_add _) (by rw [h3len]; omega) (by rw [h3len]; omega)]
    rw [zero_add]
  rw [hid]
  simp only [except_bind_ok]
  have hd3 : deref st3 (Ptr.node P) =
      Except.ok ({ p2 with blocks := b1, size := p2.size + 1 } : Inode) :=
    deref_store_same st2 (Ptr.node P) p2 _ hd2
  rw [hput st3 hd3]
  simp only [except_bind_ok]
  have hPN : (Ptr.node st.heap.length) ≠ (Ptr.node P) := by
    intro h; injection h with h; omega
  refine ⟨_, ({ p2 with blocks := b2, size := p2.size + 1 } : Inode), rfl, ?_, ?_, ?_, ?_, ?_, ?_,
    hrec, ?_, ?_⟩
  · show (st3.heap.set P _).length = _
    rw [List.length_set]; exact h3len
  · rw [deref_store_other _ _ _ _ hPN, hst3, deref_store_other _ _ _ _ hPN, deref_node_eq,
      h2heap]
    exact h2N
  · exact deref_store_same st3 (Ptr.node P) _ _ hd3
  · exact ht2.symm
  · exact hn2.symm
  · show p2.size + 1 = _
    rw [← hs2, hsz]
  · intro i hi
    rw [hkeep i hi, hb2]
  · intro i a0 hne ha0
    have hi : i < st.heap.length := by
      by_contra hge
      rw [List.getElem?_eq_none (by omega)] at ha0
      cases ha0
    obtain ⟨a1, b, h1, h2, h3, h4, h5, h6, _⟩ := hview2 i hi
    rw [ha0] at h1
    have := Option.some.inj h1
    subst this
    refine ⟨b, ?_, h3.symm, h4.symm, h6.symm, h5.symm⟩
    show (st3.heap.set P _)[i]? = _
    rw [List.getElem?_set, if_neg (Ne.symm hne), h3heap, List.getElem?_set, if_neg (Ne.symm hne)]
    exact h2

/-- Witness of C6: `mknod /a` in the state after `mknod /a`, where `/a` already
resolves to inode 1. -/
theorem mknod_always_appends_witness :
    lookup fs_with_file "/a".toList = Except.ok (Ptr.node 1) ∧
    Chain fs_with_file.heap ∧ no_free fs_with_file.heap = true ∧
    ids_in_table fs_with_file.heap = true ∧
    split_path "/a".toList = Except.ok ("/".toList, "a".toList) ∧
    lookup fs_with_file "/".toList = Except.ok (Ptr.node 0) ∧
    DirBlocks with_file_root.blocks 3 ∧
    ∃ (st4 : FS) (p4 : Inode), myfs2_mknod fs_with_file "/a".toList = Except.ok (st4, 0) ∧
      st4.heap.length = fs_with_file.heap.length + 1 ∧
      deref st4 (Ptr.node fs_with_file.heap.length)
        = Except.ok (fresh_file (fs_with_file.heap.length - 1)) ∧
      deref st4 (Ptr.node 0) = Except.ok p4 ∧
      p4.type = with_file_root.type ∧ p4.n_links = with_file_root.n_links ∧
      p4.size = ((3 : Nat) : Int) + 1 ∧
      dir_rec p4.blocks 3
        = some { inode_id := (fs_with_file.heap.length : Int), name := "a".toList } ∧
      (∀ i, i < 3 → dir_rec p4.blocks i = dir_rec with_file_root.blocks i) ∧
      (∀ i a, i ≠ 0 → fs_with_file.heap[i]? = some a → ∃ b, st4.heap[i]? = some b ∧
        b.type = a.type ∧ b.size = a.size ∧ b.n_links = a.n_links ∧ b.blocks = a.blocks) :=
  ⟨rfl, chain_of_chain_from _ rfl, rfl, rfl, rfl, rfl, by decide,
   mknod_always_appends fs_with_file "/a".toList "/".toList "a".toList 0 with_file_root 3
    (chain_of_chain_from _ rfl) rfl rfl rfl (by decide) rfl rfl rfl (by decide) (by decide)⟩

end MyFS
